import Mathlib

/-!
Shallow embedding of the tg-db repository, a Telegram-chat-backed document
store.  Embedded components:

* the message codec of src/utils (`encodeDocument` / `decodeDocument`),
* the filter engine (`matchesFilter`, `matchesOperators`, `getNestedValue`,
  `deepMerge`),
* the store orchestration of src/TelegramDB.ts (`insert`, `find`, `update`,
  `delete`, `deleteAll`, `saveMessageIndex`, `reloadCacheFromIndex`, the
  message listener and the retry wrapper).

JavaScript runtime values are modelled by the inductive `Json`; the platform
builtins JSON.stringify / JSON.parse used by the codec are modelled by an
executable serializer and parser over `Json` (numbers are embedded as `Int`;
string escaping covers the quote, backslash and the common control escapes).
The external Telegram transport is modelled by oracles: `send` maps a payload
to the message id the (retry-wrapped) send returns, or `none` when the retry
budget is exhausted; `delFail` tells whether deleting a given message id
fails; `rx` models the host regular-expression engine (`none` = the pattern
does not compile, i.e. `new RegExp` throws).
-/

namespace TgDb

/-- JSON values as handled by the codec and the store. -/
inductive Json where
  | null : Json
  | bool (b : Bool) : Json
  | num (n : Int) : Json
  | str (s : String) : Json
  | arr (elems : List Json) : Json
  | obj (fields : List (String × Json)) : Json

/-- A JavaScript object at runtime: an insertion-ordered field list.
Documents (`Document` in src/types) are such objects. -/
abbrev Doc := List (String × Json)

/-! ### JSON.stringify (platform builtin used by `encodeDocument`) -/

/-- Escaping of one character inside a JSON string literal, as produced by
JSON.stringify for the characters the embedding covers. -/
def escapeChar (c : Char) : List Char :=
  if c = '"' then ['\\', '"']
  else if c = '\\' then ['\\', '\\']
  else if c = '\n' then ['\\', 'n']
  else if c = '\t' then ['\\', 't']
  else if c = '\r' then ['\\', 'r']
  else [c]

/-- The decimal digit character for `d < 10`. -/
def digitChar (d : Nat) : Char :=
  match d with
  | 0 => '0' | 1 => '1' | 2 => '2' | 3 => '3' | 4 => '4'
  | 5 => '5' | 6 => '6' | 7 => '7' | 8 => '8' | _ => '9'

/-- Decimal digits of a natural number, most significant first. -/
def natChars (n : Nat) : List Char :=
  if _h : n < 10 then [digitChar n]
  else natChars (n / 10) ++ [digitChar (n % 10)]
  termination_by n
  decreasing_by exact Nat.div_lt_self (by omega) (by omega)

/-- Decimal notation of an integer, as JSON.stringify prints it. -/
def intChars (i : Int) : List Char :=
  if i < 0 then '-' :: natChars i.natAbs else natChars i.toNat

mutual

/-- Serialization of a JSON value, character list form of JSON.stringify. -/
def serJson : Json → List Char
  | .null => "null".data
  | .bool true => "true".data
  | .bool false => "false".data
  | .num i => intChars i
  | .str s => '"' :: (s.data.flatMap escapeChar ++ ['"'])
  | .arr xs => '[' :: (serItems xs ++ [']'])
  | .obj fs => '{' :: (serFields fs ++ ['}'])

/-- Comma-separated serialization of array elements. -/
def serItems : List Json → List Char
  | [] => []
  | [x] => serJson x
  | x :: y :: xs => serJson x ++ ',' :: serItems (y :: xs)

/-- Comma-separated serialization of object members. -/
def serFields : List (String × Json) → List Char
  | [] => []
  | [(k, v)] => serKV k v
  | (k, v) :: m :: fs => serKV k v ++ ',' :: serFields (m :: fs)

/-- One `"key":value` object member. -/
def serKV (k : String) (v : Json) : List Char :=
  '"' :: (k.data.flatMap escapeChar ++ '"' :: ':' :: serJson v)

end

/-- JSON.stringify as a `String → String` level function. -/
def JSONstringify (v : Json) : String := ⟨serJson v⟩

/-! ### JSON.parse (platform builtin used by `decodeDocument`)

A strict recursive-descent parser over the character list, with a fuel
argument for termination.  `JSONparse` runs it with fuel `length + 1`, which
the round-trip lemma shows is enough for every serialized value, and demands
that the whole input is consumed (as JSON.parse does). -/

/-- Strip an expected character sequence from the front of the input. -/
def stripPre : List Char → List Char → Option (List Char)
  | [], cs => some cs
  | _ :: _, [] => none
  | p :: ps, c :: cs => if c = p then stripPre ps cs else none

/-- Resolution of one escape sequence character inside a string literal. -/
def unescape (c : Char) : Option Char :=
  if c = '"' then some '"'
  else if c = '\\' then some '\\'
  else if c = 'n' then some '\n'
  else if c = 't' then some '\t'
  else if c = 'r' then some '\r'
  else none

/-- Parse the body of a string literal (after the opening quote) up to and
including the closing quote; returns the decoded characters and the rest. -/
def parseStringBody : List Char → Option (List Char × List Char)
  | [] => none
  | c :: rest =>
    if c = '"' then some ([], rest)
    else if c = '\\' then
      match rest with
      | [] => none
      | e :: rest' =>
        match unescape e with
        | none => none
        | some d => (parseStringBody rest').map (fun p => (d :: p.1, p.2))
    else (parseStringBody rest).map (fun p => (c :: p.1, p.2))

/-- Fold decimal digit characters into a natural number. -/
def digitsToNat (ds : List Char) : Nat :=
  ds.foldl (fun a c => 10 * a + (c.toNat - 48)) 0

/-- Decimal digit test (code points 48 to 57). -/
def isDigitC (c : Char) : Bool := 48 ≤ c.toNat && c.toNat ≤ 57

/-- Parse a (possibly negative) decimal integer literal. -/
def parseNumber (cs : List Char) : Option (Json × List Char) :=
  let neg : Bool := match cs with
    | c :: _ => c = '-'
    | [] => false
  let cs1 := if neg then cs.tail else cs
  let ds := cs1.takeWhile isDigitC
  let rest := cs1.dropWhile isDigitC
  if ds.isEmpty then none
  else some (.num (if neg then -(digitsToNat ds : Int) else (digitsToNat ds : Int)), rest)

/-- Parse the elements of a nonempty array (element parser passed in),
consuming the closing bracket. -/
def parseItemsF (pv : List Char → Option (Json × List Char)) :
    Nat → List Char → Option (List Json × List Char)
  | 0, _ => none
  | fuel + 1, cs =>
    match pv cs with
    | none => none
    | some (v, r) =>
      match r with
      | [] => none
      | c :: r' =>
        if c = ',' then
          match parseItemsF pv fuel r' with
          | some (vs, r'') => some (v :: vs, r'')
          | none => none
        else if c = ']' then some ([v], r')
        else none

/-- Parse the members of a nonempty object (value parser passed in),
consuming the closing brace. -/
def parseFieldsF (pv : List Char → Option (Json × List Char)) :
    Nat → List Char → Option (List (String × Json) × List Char)
  | 0, _ => none
  | fuel + 1, cs =>
    match cs with
    | [] => none
    | c :: rest =>
      if c = '"' then
        match parseStringBody rest with
        | none => none
        | some (k, r1) =>
          match r1 with
          | [] => none
          | c2 :: r2 =>
            if c2 = ':' then
              match pv r2 with
              | none => none
              | some (v, r3) =>
                match r3 with
                | [] => none
                | c3 :: r4 =>
                  if c3 = ',' then
                    match parseFieldsF pv fuel r4 with
                    | some (fs, r5) => some ((⟨k⟩, v) :: fs, r5)
                    | none => none
                  else if c3 = '}' then some ([(⟨k⟩, v)], r4)
                  else none
            else none
      else none

/-- Parse one JSON value. -/
def parseValue : Nat → List Char → Option (Json × List Char)
  | 0, _ => none
  | fuel + 1, cs =>
    match cs with
    | [] => none
    | c :: rest =>
      if c = 'n' then
        match stripPre ['u', 'l', 'l'] rest with
        | some r => some (.null, r)
        | none => none
      else if c = 't' then
        match stripPre ['r', 'u', 'e'] rest with
        | some r => some (.bool true, r)
        | none => none
      else if c = 'f' then
        match stripPre ['a', 'l', 's', 'e'] rest with
        | some r => some (.bool false, r)
        | none => none
      else if c = '"' then
        match parseStringBody rest with
        | some (s, r) => some (.str ⟨s⟩, r)
        | none => none
      else if c = '[' then
        match rest with
        | ']' :: r => some (.arr [], r)
        | _ =>
          match parseItemsF (parseValue fuel) fuel rest with
          | some (xs, r) => some (.arr xs, r)
          | none => none
      else if c = '{' then
        match rest with
        | '}' :: r => some (.obj [], r)
        | _ =>
          match parseFieldsF (parseValue fuel) fuel rest with
          | some (fs, r) => some (.obj fs, r)
          | none => none
      else parseNumber cs

/-- JSON.parse: parse the whole string to a value, `none` where the builtin
would throw (callers of the codec catch that throw and yield `null`). -/
def JSONparse (s : String) : Option Json :=
  match parseValue (s.data.length + 1) s.data with
  | some (v, []) => some v
  | _ => none

/-! ### The codec, src/utils encodeDocument / decodeDocument -/

/-- JS `String.prototype.startsWith`. -/
def strStartsWith (s px : String) : Bool := px.data.isPrefixOf s.data

/-- JS `String.prototype.substring(n)`. -/
def strDropN (s : String) (n : Nat) : String := ⟨s.data.drop n⟩

/-- src/utils encodeDocument: `prefix + JSON.stringify(doc)`. -/
def encodeDocument (doc : Json) (px : String := "TDB:") : String :=
  px ++ JSONstringify doc

/-- src/utils decodeDocument: `null` unless the payload starts with the
prefix and the remainder parses; parse failures are caught, never raised. -/
def decodeDocument (messageText : String) (px : String := "TDB:") : Option Json :=
  if strStartsWith messageText px then JSONparse (strDropN messageText px.length)
  else none

/-- The continuation after a serialized value never starts with a digit. -/
def noDigitHead : List Char → Prop
  | [] => True
  | c :: _ => isDigitC c = false

/-- The continuations a serialized value is followed by inside a document. -/
def delimOk : List Char → Prop
  | [] => True
  | c :: _ => c = ',' ∨ c = ']' ∨ c = '}'

/-! ### The filter engine (src/utils matchesFilter / matchesOperators /
getNestedValue) and deepMerge

Filters and documents are JS objects, embedded as ordered field lists.  The
`rx` oracle models the host regular-expression engine
(`rx pattern input = none` models `new RegExp(pattern)` throwing on an
invalid pattern; the `Except Unit` result of the engine models an exception
propagating out of `matchesFilter`). -/

/-- First-match association lookup: JS object property access and
`Map.prototype.get` (JS objects and Maps have unique keys; the embedding
keeps the first binding). -/
def mapGet (m : List (String × α)) (k : String) : Option α :=
  match m with
  | [] => none
  | (k', v) :: rest => if k' == k then some v else mapGet rest k

/-- JS `Map.prototype.set` and object literal update `{...o, k: v}`: replace
the value at an existing key in place (keeping its position), else append. -/
def mapSet (m : List (String × α)) (k : String) (v : α) : List (String × α) :=
  if m.any (fun e => e.1 == k) then
    m.map (fun e => if e.1 == k then (k, v) else e)
  else m ++ [(k, v)]

/-- JS `Map.prototype.delete`. -/
def mapDel (m : List (String × α)) (k : String) : List (String × α) :=
  m.filter (fun e => !(e.1 == k))

/-- JS strict equality (`===`) on the embedded values: value equality on
primitives; `false` between compound values (two distinct object or array
literals are distinct references; the same-reference corner is not
representable in the embedding and not exercised by the repository). -/
def jsStrictEq : Json → Json → Bool
  | .null, .null => true
  | .bool a, .bool b => a == b
  | .num a, .num b => a == b
  | .str a, .str b => a == b
  | _, _ => false

/-- `===` between a possibly-undefined field value and a defined value
(`undefined === v` is false for every value `v`). -/
def jsStrictEqO : Option Json → Json → Bool
  | none, _ => false
  | some a, b => jsStrictEq a b

/-- The optional-chaining property access `current?.[key]` used by
getNestedValue.  (String character indexing and `length` properties of
arrays/strings are outside the embedding and unused by the repository's
dotted paths.) -/
def jsGet : Option Json → String → Option Json
  | none, _ => none
  | some (.obj fs), key => mapGet fs key
  | some (.arr xs), key =>
    match key.toNat? with
    | some i => xs[i]?
    | none => none
  | some _, _ => none

/-- JS `String.prototype.split` on a single-character separator. -/
def splitOnC (sep : Char) : List Char → List (List Char)
  | [] => [[]]
  | c :: rest =>
    let r := splitOnC sep rest
    if c = sep then [] :: r
    else
      match r with
      | h :: t => (c :: h) :: t
      | [] => [[c]]

/-- `path.split('.')`. -/
def splitPath (s : String) : List String := (splitOnC '.' s.data).map (fun l => ⟨l⟩)

/-- src/utils getNestedValue: `path.split('.').reduce((cur, key) => cur?.[key], obj)`. -/
def getNestedValue (obj : Json) (path : String) : Option Json :=
  (splitPath path).foldl jsGet (some obj)

/-- JS `>` restricted to the embedded values: number/number and
string/string compare; any other combination — an undefined operand
included — evaluates to false (as the spec defines for incompatible types;
JS number/string coercion corners are outside the embedding and unused by
the claims). -/
def jsGtB : Option Json → Json → Bool
  | some (.num a), .num b => b < a
  | some (.str a), .str b => decide (b < a)
  | _, _ => false

/-- JS `>=` under the same restriction. -/
def jsGeB : Option Json → Json → Bool
  | some (.num a), .num b => b ≤ a
  | some (.str a), .str b => decide (b < a) || a == b
  | _, _ => false

/-- JS `<` under the same restriction. -/
def jsLtB : Option Json → Json → Bool
  | some (.num a), .num b => a < b
  | some (.str a), .str b => decide (a < b)
  | _, _ => false

/-- JS `<=` under the same restriction. -/
def jsLeB : Option Json → Json → Bool
  | some (.num a), .num b => a ≤ b
  | some (.str a), .str b => decide (a < b) || a == b
  | _, _ => false

/-- JS `Array.prototype.includes` membership test of the (possibly
undefined) field value against one array element (SameValueZero, which
coincides with `===` on the embedded values). -/
def jsIncludesEq (docValue : Option Json) (e : Json) : Bool :=
  match docValue with
  | none => false
  | some d => jsStrictEq e d

/-- JS `docValue !== undefined && docValue !== null` (the `$exists` test). -/
def jsDefined : Option Json → Bool
  | none => false
  | some .null => false
  | some _ => true

/-- The regex-engine oracle: `rx pattern input = none` models
`new RegExp(pattern)` throwing (invalid pattern), `some b` the result of
`regex.test(input)`. -/
abbrev RxOracle := Json → String → Option Bool

/-- The case dispatch of matchesOperators' switch statement: the arm index
an operator key selects (9 = the `default` arm). -/
def opTag (op : String) : Nat :=
  if op == "$gt" then 0
  else if op == "$gte" then 1
  else if op == "$lt" then 2
  else if op == "$lte" then 3
  else if op == "$ne" then 4
  else if op == "$in" then 5
  else if op == "$nin" then 6
  else if op == "$regex" then 7
  else if op == "$exists" then 8
  else 9

/-- The verdict of one arm of matchesOperators' switch on one operator
entry: `some r` models an early `return false` or a thrown exception
stopping the loop with result `r`; `none` models falling through (`break`)
to the next entry — the constraint is satisfied or the operator key is
unrecognized (the `default` arm, tag 9). -/
def opStep (rx : RxOracle) (docValue : Option Json) (op : String) (opValue : Json) :
    Option (Except Unit Bool) :=
  match opTag op with
  | 0 => if jsGtB docValue opValue then none else some (.ok false)
  | 1 => if jsGeB docValue opValue then none else some (.ok false)
  | 2 => if jsLtB docValue opValue then none else some (.ok false)
  | 3 => if jsLeB docValue opValue then none else some (.ok false)
  | 4 => if jsStrictEqO docValue opValue then some (.ok false) else none
  | 5 =>
    match opValue with
    | .arr xs =>
      if xs.any (fun e => jsIncludesEq docValue e) then none else some (.ok false)
    | _ => some (.ok false)
  | 6 =>
    match opValue with
    | .arr xs =>
      if xs.any (fun e => jsIncludesEq docValue e) then some (.ok false) else none
    | _ => none
  | 7 =>
    match docValue with
    | some (.str s) =>
      match rx opValue s with
      | none => some (.error ())
      | some b => if b then none else some (.ok false)
    | _ => some (.ok false)
  | 8 =>
    if jsStrictEq opValue (.bool (jsDefined docValue)) then none else some (.ok false)
  | _ => none

/-- src/utils matchesOperators: fold over the operator object's entries; an
arm's early `return false` or throw stops the loop, otherwise the loop
continues; the loop's end returns true. -/
def matchesOperators (rx : RxOracle) (docValue : Option Json) :
    List (String × Json) → Except Unit Bool
  | [] => .ok true
  | (op, opValue) :: rest =>
    match opStep rx docValue op opValue with
    | some r => r
    | none => matchesOperators rx docValue rest

/-- src/utils matchesFilter: evaluate a MongoDB-style predicate against a
document.  The `_id` key is short-circuited by strict identity equality
before the general handling; a non-null non-array object value is an
operator object; an array value is membership; anything else is a literal
strict-equality test. -/
def matchesFilter (rx : RxOracle) (doc : Doc) :
    List (String × Json) → Except Unit Bool
  | [] => .ok true
  | (key, value) :: rest =>
    if key == "_id" && !(jsStrictEqO (mapGet doc "_id") value) then .ok false
    else
      let docValue := getNestedValue (.obj doc) key
      match value with
      | .obj ops => do
        let b ← matchesOperators rx docValue ops
        if b then matchesFilter rx doc rest else .ok false
      | .arr elems =>
        if elems.any (fun e => jsIncludesEq docValue e) then matchesFilter rx doc rest
        else .ok false
      | _ =>
        if jsStrictEqO docValue value then matchesFilter rx doc rest else .ok false

/-- JS object spread `{...v}`: the own enumerable fields of an object, none
for the primitives the repository spreads (the array/string indexed-key
corner is not exercised by the repository). -/
def spreadFields : Json → List (String × Json)
  | .obj fs => fs
  | _ => []

mutual

/-- src/utils deepMerge: `output = {...target}`, then for each source key,
recursively merge object values present in the target, otherwise assign. -/
def deepMerge (target source : Json) : Json :=
  match target, source with
  | .obj tf, .obj sf => .obj (deepMergeGo tf tf sf)
  | t, _ => .obj (spreadFields t)
  termination_by (sizeOf source, 0)

/-- The `Object.keys(source).forEach` loop of deepMerge: `t` is the original
target's field list (for the `key in target` test), `out` the output being
built; every branch of the loop body assigns `output[key]` (`Object.assign`
and the indexed assignment both), so each step is one `mapSet` of the
merged value. -/
def deepMergeGo (t out : List (String × Json)) :
    List (String × Json) → List (String × Json)
  | [] => out
  | (k, v) :: rest => deepMergeGo t (mapSet out k (mergeVal t k v)) rest
  termination_by l => (sizeOf l, 0)

/-- The value deepMerge's loop assigns for one source entry: a source object
value present in the target merges recursively, a source object value absent
from the target is taken as is, and every non-object source value
overwrites. -/
def mergeVal (t : List (String × Json)) (k : String) (v : Json) : Json :=
  match v with
  | .obj vf =>
    match mapGet t k with
    | some tk => deepMerge tk (.obj vf)
    | none => .obj vf
  | _ => v
  termination_by (sizeOf v, 1)

end

/-- deepMerge at the document (field-list) level, as `update` uses it. -/
def deepMergeDoc (t s : Doc) : Doc := deepMergeGo t t s

/-! ### The store (src/TelegramDB.ts)

The local state is the pair of JS Maps plus the snapshot message id.  All
operations below model the initialized store; `initialize` itself (transport
authentication) is outside the embedding.  The nondeterministic outside
world is the `Env` oracle bundle. -/

/-- TelegramDB's mutable local state. -/
structure DBState where
  messageIndex : List (String × Nat)
  documentCache : List (String × Doc)
  indexMessageId : Option Nat

/-- OperationResult of src/types (`data` as the JSON value it carries;
`hasError` records presence of the `error` field). -/
structure OpResult where
  success : Bool
  data : Option Json := none
  message : Option String := none
  hasError : Bool := false

/-- UpdateOptions of src/types. -/
structure UpdateOptions where
  upsert : Bool := false
  replace : Bool := false

/-- The external transport and the nondeterministic inputs of one operation:
`send k payload` is the outcome of the k-th retry-wrapped document send of
the operation (`none` = the retry budget was exhausted and the last error is
thrown); `sendIdx payload` the outcome of saveMessageIndex's single snapshot
send; `delFail mid` whether `deleteMessage mid` fails; `rx` the regex
engine; `newId` the string generateId() returns; `now` Date.now(). -/
structure Env where
  rx : RxOracle
  send : Nat → String → Option Nat
  sendIdx : String → Option Nat
  delFail : Nat → Bool
  newId : String
  now : Nat

/-- `doc._id` read as the string the store's typed code treats it as
(src/types declares `_id : string`; an absent value reads as ""). -/
def idOf (d : Doc) : String :=
  match mapGet d "_id" with
  | some (.str s) => s
  | _ => ""

/-- saveMessageIndex's indexData snapshot document. -/
def snapshotJson (s : DBState) (now : Nat) : Json :=
  .obj [("_id", .str "__INDEX__"), ("_table", .str "__SYSTEM__"),
    ("messageIndex", .arr (s.messageIndex.map (fun e => .arr [.str e.1, .num e.2]))),
    ("documents", .arr (s.documentCache.map (fun e => .obj e.2))),
    ("updatedAt", .num now)]

/-- TelegramDB.saveMessageIndex: best-effort delete of the previous snapshot
message (channel-only, no local effect), then — only when the message index
is nonempty — one try/catch send of the new snapshot; on success the new
snapshot message id is recorded; failures are swallowed and
`indexMessageId` is never reset. -/
def saveMessageIndex (env : Env) (px : String) (s : DBState) : DBState :=
  let indexMessage := encodeDocument (snapshotJson s env.now) (px ++ "INDEX:")
  if s.messageIndex.length > 0 then
    match env.sendIdx indexMessage with
    | some mid => { s with indexMessageId := some mid }
    | none => s
  else s

/-- The id insert assigns: `doc._id || generateId()`. -/
def insertId (env : Env) (doc : Doc) : String :=
  if idOf doc == "" then env.newId else idOf doc

/-- insert's `{...doc, _id: doc._id || generateId(), _table: table}`. -/
def insertDocument (env : Env) (doc : Doc) (table : String) : Doc :=
  mapSet (mapSet doc "_id" (.str (insertId env doc))) "_table" (.str table)

/-- TelegramDB.insert: encode, retry-wrapped send (send index 0), on success
update both maps and republish the snapshot; every throw is caught and
returned as a failed Result (the state is then untouched). -/
def insertOp (env : Env) (px : String) (doc : Doc) (table : String) (s : DBState) :
    DBState × OpResult :=
  let document := insertDocument env doc table
  let message := encodeDocument (.obj document) px
  match env.send 0 message with
  | none =>
    (s, { success := false, hasError := true,
          message := some "Failed to insert document" })
  | some mid =>
    let s1 : DBState :=
      { s with messageIndex := mapSet s.messageIndex (insertId env doc) mid,
               documentCache := mapSet s.documentCache (insertId env doc) document }
    let s2 := saveMessageIndex env px s1
    (s2, { success := true,
           data := some (.obj (mapSet document "_messageId" (.num mid))),
           message := some "Document inserted successfully" })

/-- TelegramDB.reloadCacheFromIndex: its body is an if with an empty (comment
only) branch inside try/catch — a no-op on the state, consulting no channel
history. -/
def reloadCacheFromIndex (s : DBState) : DBState := s

/-- find's `for ([docId, doc] of documentCache.entries())` scan collecting
`matchesFilter` hits; an exception from matchesFilter aborts the loop. -/
def scanCache (rx : RxOracle) (q : List (String × Json)) :
    List (String × Doc) → Except Unit (List Doc)
  | [] => .ok []
  | (_, d) :: rest => do
    let b ← matchesFilter rx d q
    let tl ← scanCache rx q rest
    pure (if b then d :: tl else tl)

/-- TelegramDB.find: scan with the augmented filter `{...filter, _table}`;
when the cache is empty, reloadCacheFromIndex then scan again (appending to
the same result array); internal errors are rethrown (`.error`), not
returned. -/
def findOp (env : Env) (filter : List (String × Json)) (table : String) (s : DBState) :
    Except Unit (List Doc) := do
  let q := mapSet filter "_table" (.str table)
  let docs ← scanCache env.rx q s.documentCache
  if s.documentCache.length == 0 then
    let s' := reloadCacheFromIndex s
    let docs2 ← scanCache env.rx q s'.documentCache
    pure (docs ++ docs2)
  else pure docs

/-- TelegramDB.findOne: first find result or null. -/
def findOneOp (env : Env) (filter : List (String × Json)) (table : String)
    (s : DBState) : Except Unit (Option Doc) := do
  let results ← findOp env filter table s
  pure results.head?

/-- TelegramDB.findById = findOne with `{_id: id}`. -/
def findByIdOp (env : Env) (id : String) (table : String) (s : DBState) :
    Except Unit (Option Doc) :=
  findOneOp env [("_id", .str id)] table s

/-- The `docs.filter(doc => matchesFilter(doc, queryWithTable))` step update
and delete share (Array.filter, in order; matchesFilter may throw). -/
def filterDocs (rx : RxOracle) (q : List (String × Json)) :
    List Doc → Except Unit (List Doc)
  | [] => .ok []
  | d :: rest => do
    let b ← matchesFilter rx d q
    let tl ← filterDocs rx q rest
    pure (if b then d :: tl else tl)

/-- update/delete's match resolution:
`find({}, table)` then client-side filter with `{...filter, _table}`. -/
def matchedDocs (env : Env) (filter : List (String × Json)) (table : String)
    (s : DBState) : Except Unit (List Doc) := do
  let all ← findOp env [] table s
  filterDocs env.rx (mapSet filter "_table" (.str table)) all

/-- update's per-match document: replace mode `{...update, _id: doc._id}`,
merge mode `deepMerge(doc, {...update, _id: doc._id})`. -/
def mkUpdated (opts : UpdateOptions) (patch : Doc) (d : Doc) : Doc :=
  let withId := mapSet patch "_id" (.str (idOf d))
  if opts.replace then withId else deepMergeDoc d withId

/-- The per-match loop of TelegramDB.update: best-effort delete of the old
channel message (channel-only), then a retry-wrapped send whose exhaustion
throws out of the loop (to be caught by update's catch); on success both
maps are updated and the updated document collected.  Returns the state, the
collected documents and whether the loop completed (`false` = a send threw,
and the collected list is discarded by the catch). -/
def updateLoop (env : Env) (px : String) (opts : UpdateOptions) (patch : Doc) :
    Nat → List Doc → DBState → DBState × List Doc × Bool
  | _, [], s => (s, [], true)
  | k, d :: rest, s =>
    let updated := mkUpdated opts patch d
    match env.send k (encodeDocument (.obj updated) px) with
    | none => (s, [], false)
    | some mid =>
      let s1 : DBState :=
        { s with messageIndex := mapSet s.messageIndex (idOf updated) mid,
                 documentCache := mapSet s.documentCache (idOf updated) updated }
      let (s2, docs, ok) := updateLoop env px opts patch (k + 1) rest s1
      (s2, updated :: docs, ok)

/-- TelegramDB.update. -/
def updateOp (env : Env) (px : String) (filter : List (String × Json)) (patch : Doc)
    (table : String) (opts : UpdateOptions) (s : DBState) : DBState × OpResult :=
  match matchedDocs env filter table s with
  | .error _ =>
    (s, { success := false, hasError := true,
          message := some "Failed to update documents" })
  | .ok documents =>
    if documents.isEmpty && opts.upsert then
      insertOp env px (deepMergeDoc filter patch) table s
    else if documents.isEmpty then
      (s, { success := false, message := some "No documents found to update" })
    else
      match updateLoop env px opts patch 0 documents s with
      | (s1, updatedDocs, true) =>
        let s2 := saveMessageIndex env px s1
        (s2, { success := true, data := some (.arr (updatedDocs.map .obj)),
               message := some "Updated document(s)" })
      | (s1, _, false) =>
        (s1, { success := false, hasError := true,
               message := some "Failed to update documents" })

/-- TelegramDB.updateById = update with `{_id: id}`. -/
def updateByIdOp (env : Env) (px : String) (id : String) (patch : Doc) (table : String)
    (opts : UpdateOptions) (s : DBState) : DBState × OpResult :=
  updateOp env px [("_id", .str id)] patch table opts s

/-- The per-match loop of TelegramDB.delete.  The whole per-match body sits
under `if (messageId)` — only a present, nonzero (truthy) message-index
entry is processed: the channel delete is attempted, and in BOTH the success
and the catch path the document is removed from both maps; deletedCount
increments only on channel-delete success.  A match without a truthy entry
is skipped entirely. -/
def deleteLoop (env : Env) : List Doc → DBState → DBState × Nat
  | [], s => (s, 0)
  | d :: rest, s =>
    match mapGet s.messageIndex (idOf d) with
    | some mid =>
      if mid != 0 then
        let s1 : DBState :=
          { s with messageIndex := mapDel s.messageIndex (idOf d),
                   documentCache := mapDel s.documentCache (idOf d) }
        let (s2, n) := deleteLoop env rest s1
        if env.delFail mid then (s2, n) else (s2, n + 1)
      else
        deleteLoop env rest s
    | none => deleteLoop env rest s

/-- TelegramDB.delete. -/
def deleteOp (env : Env) (px : String) (filter : List (String × Json)) (table : String)
    (s : DBState) : DBState × OpResult :=
  match matchedDocs env filter table s with
  | .error _ =>
    (s, { success := false, hasError := true,
          message := some "Failed to delete documents" })
  | .ok documents =>
    if documents.isEmpty then
      (s, { success := false, message := some "No documents found to delete" })
    else
      let (s1, deletedCount) := deleteLoop env documents s
      let s2 := saveMessageIndex env px s1
      (s2, { success := true,
             data := some (.obj [("deletedCount", .num deletedCount)]),
             message := some "Deleted document(s)" })

/-- TelegramDB.deleteById = delete with `{_id: id}`. -/
def deleteByIdOp (env : Env) (px : String) (id : String) (table : String) (s : DBState) :
    DBState × OpResult :=
  deleteOp env px [("_id", .str id)] table s

/-- TelegramDB.deleteAll = delete with the empty filter. -/
def deleteAllOp (env : Env) (px : String) (table : String) (s : DBState) :
    DBState × OpResult :=
  deleteOp env px [] table s

/-- TelegramDB.dropTable = deleteAll. -/
def dropTableOp (env : Env) (px : String) (table : String) (s : DBState) :
    DBState × OpResult :=
  deleteAllOp env px table s

/-- TelegramDB.count: `find({}, table)` then a client-side filter-count with
the augmented filter; uncaught, so matchesFilter throws propagate. -/
def countOp (env : Env) (filter : List (String × Json)) (table : String) (s : DBState) :
    Except Unit Nat := do
  let documents ← findOp env [] table s
  let matched ← filterDocs env.rx (mapSet filter "_table" (.str table)) documents
  pure matched.length

/-- TelegramDB.retryOperation over the sequence of attempt outcomes (one per
loop iteration, `maxRetries` many): the first success is returned; when
every attempt fails the LAST error is thrown (`.error (some e)`); an empty
attempt list (maxRetries = 0) throws the never-assigned `lastError`
(`.error none`). -/
def retryOperation : List (Except E T) → Except (Option E) T
  | [] => .error none
  | [.ok t] => .ok t
  | [.error e] => .error (some e)
  | .ok t :: _ :: _ => .ok t
  | .error _ :: a :: rest => retryOperation (a :: rest)

/-- JS truthiness of a value. -/
def truthy : Json → Bool
  | .null => false
  | .bool b => b
  | .num n => n != 0
  | .str s => s != ""
  | .arr _ => true
  | .obj _ => true

/-- JS truthiness of a possibly-undefined value. -/
def truthyO : Option Json → Bool
  | none => false
  | some v => truthy v

/-- The snapshot's message-index entries: `new Map(indexData.messageIndex)`
over well-formed `[id, messageId]` pairs, later entries overriding earlier
ones as Map construction does.  (Malformed entries, which would make the JS
Map constructor misbehave or throw, are outside the embedding and are never
produced by saveMessageIndex.) -/
def snapshotEntries : Json → List (String × Nat)
  | .arr xs =>
    xs.foldl (fun m e =>
      match e with
      | .arr [.str k, .num n] => mapSet m k n.toNat
      | _ => m) []
  | _ => []

/-- The snapshot's `documents.forEach(doc => cache.set(doc._id, doc))` merge
into the existing cache (for document objects with a string id; a
non-string id would create a non-string Map key, a corner outside the
embedding never produced by saveMessageIndex). -/
def snapshotDocsInto (cache : List (String × Doc)) : Json → List (String × Doc)
  | .arr xs =>
    xs.foldl (fun c dj =>
      match dj with
      | .obj fs =>
        match mapGet fs "_id" with
        | some (.str i) => mapSet c i fs
        | _ => c
      | _ => c) cache
  | _ => cache

/-- The `bot.on('message')` listener of setupMessageListener, for a text
message of the store's chat: a plain document message (document prefix but
not the snapshot prefix) with a truthy decoded `_id` upserts both maps; a
snapshot message that decodes to `_id === "__INDEX__"` with truthy
messageIndex and documents fields wholesale-replaces the message index,
merges the snapshot's documents into the cache (the cache is NOT cleared),
and records the snapshot message id. -/
def handleMessage (px : String) (mid : Nat) (text : String) (s : DBState) : DBState :=
  if strStartsWith text px && !(strStartsWith text (px ++ "INDEX:")) then
    match decodeDocument text px with
    | some d =>
      if truthy d && truthyO (jsGet (some d) "_id") then
        match d with
        | .obj fs =>
          match mapGet fs "_id" with
          | some (.str i) =>
            { s with messageIndex := mapSet s.messageIndex i mid,
                     documentCache := mapSet s.documentCache i fs }
          | _ => s
        | _ => s
      else s
    | none => s
  else if strStartsWith text (px ++ "INDEX:") then
    match decodeDocument text (px ++ "INDEX:") with
    | some d =>
      if jsStrictEqO (jsGet (some d) "_id") (.str "__INDEX__") &&
          truthyO (jsGet (some d) "messageIndex") &&
          truthyO (jsGet (some d) "documents") then
        let entries :=
          match jsGet (some d) "messageIndex" with
          | some j => snapshotEntries j
          | none => []
        let cache' :=
          match jsGet (some d) "documents" with
          | some j => snapshotDocsInto s.documentCache j
          | none => s.documentCache
        { messageIndex := entries, documentCache := cache', indexMessageId := some mid }
      else s
    | none => s
  else s

/-- The documents of a table in cache order: the cache entries whose
document's `_table` field strictly equals the table name (what the
augmented empty filter `{_table: table}` selects). -/
def tableDocs (table : String) (cache : List (String × Doc)) : List Doc :=
  (cache.filter (fun e => jsStrictEqO (mapGet e.2 "_table") (.str table))).map (fun e => e.2)

/-- Spec-side fold: the state after the successful sends of a run of
update's per-match loop (one `{messageIndex.set, documentCache.set}` pair
per successfully sent match, send indices increasing). -/
def applyUpdates (env : Env) (px : String) (opts : UpdateOptions) (patch : Doc) :
    Nat → List Doc → DBState → DBState
  | _, [], s => s
  | k, p :: rest, s =>
    let updated := mkUpdated opts patch p
    match env.send k (encodeDocument (.obj updated) px) with
    | none => s
    | some mid =>
      applyUpdates env px opts patch (k + 1) rest
        { s with messageIndex := mapSet s.messageIndex (idOf updated) mid,
                 documentCache := mapSet s.documentCache (idOf updated) updated }

/-- A transport environment whose operations all succeed. -/
def okEnv : Env :=
  { rx := fun _ _ => some true, send := fun _ _ => some 99, sendIdx := fun _ => some 77,
    delFail := fun _ => false, newId := "gen", now := 0 }

/-- Concrete listener payload: the document message
`TDB:{"_id":"a","_table":"users"}` (spelled as characters). -/
def c2DocText : String :=
  ⟨['T', 'D', 'B', ':',
    '{', '"', '_', 'i', 'd', '"', ':', '"', 'a', '"', ',',
    '"', '_', 't', 'a', 'b', 'l', 'e', '"', ':', '"', 'u', 's', 'e', 'r', 's', '"', '}']⟩

/-- Concrete listener payload: a snapshot message with an empty message
index and an empty document list,
`TDB:INDEX:{"_id":"__INDEX__","messageIndex":[],"documents":[]}`. -/
def c2SnapText : String :=
  ⟨['T', 'D', 'B', ':', 'I', 'N', 'D', 'E', 'X', ':',
    '{', '"', '_', 'i', 'd', '"', ':', '"', '_', '_', 'I', 'N', 'D', 'E', 'X', '_', '_', '"', ',',
    '"', 'm', 'e', 's', 's', 'a', 'g', 'e', 'I', 'n', 'd', 'e', 'x', '"', ':', '[', ']', ',',
    '"', 'd', 'o', 'c', 'u', 'm', 'e', 'n', 't', 's', '"', ':', '[', ']', '}']⟩

/-- The reachable state after the listener sees the document message (id 5)
and then the snapshot message (id 7): the document sits in the cache while
the message index is empty. -/
def c2State : DBState :=
  handleMessage "TDB:" 7 c2SnapText (handleMessage "TDB:" 5 c2DocText
    { messageIndex := [], documentCache := [], indexMessageId := none })

/-- Two documents for the delete-loop witness: "a" has message-index entry
5, "b" has none. -/
def c2wDocA : Doc := [("_id", .str "a"), ("_table", .str "users")]

def c2wDocB : Doc := [("_id", .str "b"), ("_table", .str "users")]

def c2wState : DBState :=
  { messageIndex := [("a", 5)],
    documentCache := [("a", c2wDocA), ("b", c2wDocB)], indexMessageId := none }

/-- A transport whose second document send (send index 1) exhausts its
retries; all other sends succeed. -/
def c3Env : Env :=
  { rx := fun _ _ => some true,
    send := fun k _ => if k == 1 then none else some (100 + k),
    sendIdx := fun _ => some 77, delFail := fun _ => false, newId := "gen", now := 0 }

def c3DocA : Doc := [("_id", .str "a"), ("_table", .str "users")]

def c3DocB : Doc := [("_id", .str "b"), ("_table", .str "users")]

def c3DocC : Doc := [("_id", .str "c"), ("_table", .str "users")]

/-- Three cached documents of table "users". -/
def c3State : DBState :=
  { messageIndex := [("a", 1), ("b", 2), ("c", 3)],
    documentCache := [("a", c3DocA), ("b", c3DocB), ("c", c3DocC)],
    indexMessageId := none }

/-- A regex engine on which the pattern "(" does not compile (as JS's
`new RegExp("(")` throws) and every other pattern matches. -/
def c5Env : Env :=
  { rx := fun p _ =>
      match p with
      | .str s => if s = "(" then none else some true
      | _ => some true,
    send := fun _ _ => some 99, sendIdx := fun _ => some 77,
    delFail := fun _ => false, newId := "gen", now := 0 }

/-- One cached "users" document with a string email field. -/
def c5State : DBState :=
  { messageIndex := [("a", 5)],
    documentCache := [("a", [("_id", .str "a"), ("_table", .str "users"),
      ("email", .str "x@y")])],
    indexMessageId := none }

/-- An empty-cache state whose message index still references channel
message 5 (as after a snapshot that carried index entries but whose
documents were not merged). -/
def c6State : DBState :=
  { messageIndex := [("a", 5)], documentCache := [], indexMessageId := some 9 }

/-! ### Round-trip lemmas for the codec -/

theorem stripPre_append (p cs : List Char) : stripPre p (p ++ cs) = some cs := by
  induction p with
  | nil => rfl
  | cons a ps ih => simp [stripPre, ih]

theorem escapeChar_plain {c : Char} (h1 : c ≠ '"') (h2 : c ≠ '\\') (h3 : c ≠ '\n')
    (h4 : c ≠ '\t') (h5 : c ≠ '\r') : escapeChar c = [c] := by
  simp [escapeChar, h1, h2, h3, h4, h5]

theorem psb_quote (r : List Char) : parseStringBody ('"' :: r) = some ([], r) := by
  rw [parseStringBody.eq_def]; simp

theorem psb_esc {e d : Char} (r : List Char) (h : unescape e = some d) :
    parseStringBody ('\\' :: e :: r) = (parseStringBody r).map (fun p => (d :: p.1, p.2)) := by
  rw [parseStringBody.eq_def]; simp [h]

theorem psb_plain {c : Char} (r : List Char) (h1 : c ≠ '"') (h2 : c ≠ '\\') :
    parseStringBody (c :: r) = (parseStringBody r).map (fun p => (c :: p.1, p.2)) := by
  rw [parseStringBody.eq_def]; simp [h1, h2]

theorem parseStringBody_ser (l rest : List Char) :
    parseStringBody (l.flatMap escapeChar ++ '"' :: rest) = some (l, rest) := by
  induction l with
  | nil => simpa using psb_quote rest
  | cons c tl ih =>
    rw [List.flatMap_cons, List.append_assoc]
    by_cases h1 : c = '"'
    · subst h1
      rw [show escapeChar '"' = ['\\', '"'] from rfl, List.cons_append, List.cons_append,
        List.nil_append, psb_esc _ (show unescape '"' = some '"' from rfl), ih]
      rfl
    · by_cases h2 : c = '\\'
      · subst h2
        rw [show escapeChar '\\' = ['\\', '\\'] from rfl, List.cons_append, List.cons_append,
          List.nil_append, psb_esc _ (show unescape '\\' = some '\\' from rfl), ih]
        rfl
      · by_cases h3 : c = '\n'
        · subst h3
          rw [show escapeChar '\n' = ['\\', 'n'] from rfl, List.cons_append, List.cons_append,
            List.nil_append, psb_esc _ (show unescape 'n' = some '\n' from rfl), ih]
          rfl
        · by_cases h4 : c = '\t'
          · subst h4
            rw [show escapeChar '\t' = ['\\', 't'] from rfl, List.cons_append, List.cons_append,
              List.nil_append, psb_esc _ (show unescape 't' = some '\t' from rfl), ih]
            rfl
          · by_cases h5 : c = '\r'
            · subst h5
              rw [show escapeChar '\r' = ['\\', 'r'] from rfl, List.cons_append, List.cons_append,
                List.nil_append, psb_esc _ (show unescape 'r' = some '\r' from rfl), ih]
              rfl
            · rw [escapeChar_plain h1 h2 h3 h4 h5, List.cons_append, List.nil_append,
                psb_plain _ h1 h2, ih]
              rfl

theorem digitChar_toNat {d : Nat} (h : d < 10) : (digitChar d).toNat = 48 + d := by
  interval_cases d <;> rfl

theorem isDigitC_digitChar {d : Nat} (h : d < 10) : isDigitC (digitChar d) = true := by
  interval_cases d <;> rfl

theorem natChars_ne_nil (n : Nat) : natChars n ≠ [] := by
  rw [natChars]; split <;> simp

theorem natChars_all_digits (n : Nat) : ∀ c ∈ natChars n, isDigitC c = true := by
  induction n using Nat.strong_induction_on with
  | _ n ih =>
    rw [natChars]; split
    · rename_i h; intro c hc
      rw [List.mem_singleton] at hc; subst hc; exact isDigitC_digitChar h
    · rename_i h; intro c hc
      rw [List.mem_append] at hc
      rcases hc with hc | hc
      · exact ih (n / 10) (Nat.div_lt_self (by omega) (by omega)) c hc
      · rw [List.mem_singleton] at hc; subst hc
        exact isDigitC_digitChar (Nat.mod_lt _ (by omega))

theorem digitsToNat_append (ds : List Char) (c : Char) :
    digitsToNat (ds ++ [c]) = 10 * digitsToNat ds + (c.toNat - 48) := by
  simp [digitsToNat, List.foldl_append]

theorem digitsToNat_natChars (n : Nat) : digitsToNat (natChars n) = n := by
  induction n using Nat.strong_induction_on with
  | _ n ih =>
    rw [natChars]; split
    · rename_i h; simp [digitsToNat, digitChar_toNat h]
    · rename_i h
      rw [digitsToNat_append, ih (n / 10) (Nat.div_lt_self (by omega) (by omega)),
        digitChar_toNat (Nat.mod_lt _ (by omega))]
      omega

theorem takeWhile_app_all {p : Char → Bool} (l r : List Char) (h : ∀ c ∈ l, p c = true) :
    (l ++ r).takeWhile p = l ++ r.takeWhile p := by
  induction l with
  | nil => rfl
  | cons a tl ih =>
    have ha : p a = true := h a (by simp)
    simp [List.takeWhile_cons, ha, ih (fun c hc => h c (by simp [hc]))]

theorem dropWhile_app_all {p : Char → Bool} (l r : List Char) (h : ∀ c ∈ l, p c = true) :
    (l ++ r).dropWhile p = r.dropWhile p := by
  induction l with
  | nil => rfl
  | cons a tl ih =>
    have ha : p a = true := h a (by simp)
    simp [List.dropWhile_cons, ha, ih (fun c hc => h c (by simp [hc]))]

theorem takeWhile_noDigit {r : List Char} (h : noDigitHead r) : r.takeWhile isDigitC = [] := by
  cases r with
  | nil => rfl
  | cons c tl => simp only [noDigitHead] at h; simp [List.takeWhile_cons, h]

theorem dropWhile_noDigit {r : List Char} (h : noDigitHead r) : r.dropWhile isDigitC = r := by
  cases r with
  | nil => rfl
  | cons c tl => simp only [noDigitHead] at h; simp [List.dropWhile_cons, h]

theorem natChars_cons (n : Nat) : ∃ c tl, natChars n = c :: tl ∧ isDigitC c = true := by
  obtain ⟨c, tl, h⟩ := List.exists_cons_of_ne_nil (natChars_ne_nil n)
  exact ⟨c, tl, h, natChars_all_digits n c (by rw [h]; simp)⟩

theorem isDigitC_ne {c : Char} (h : isDigitC c = true) :
    c ≠ 'n' ∧ c ≠ 't' ∧ c ≠ 'f' ∧ c ≠ '"' ∧ c ≠ '[' ∧ c ≠ '{' ∧ c ≠ '-' ∧
      c ≠ ']' ∧ c ≠ '}' ∧ c ≠ ',' := by
  have hn : 48 ≤ c.toNat ∧ c.toNat ≤ 57 := by
    simpa [isDigitC] using h
  refine ⟨?_, ?_, ?_, ?_, ?_, ?_, ?_, ?_, ?_, ?_⟩ <;> rintro rfl <;> revert hn <;> decide

theorem intChars_cons (i : Int) :
    ∃ c tl, intChars i = c :: tl ∧ (isDigitC c = true ∨ c = '-') := by
  rw [intChars]; split
  · exact ⟨'-', _, rfl, Or.inr rfl⟩
  · obtain ⟨c, tl, h, hd⟩ := natChars_cons i.toNat
    exact ⟨c, tl, h, Or.inl hd⟩

theorem parseNumber_ser (i : Int) (rest : List Char) (h : noDigitHead rest) :
    parseNumber (intChars i ++ rest) = some (.num i, rest) := by
  have htk : ∀ m : Nat, (natChars m ++ rest).takeWhile isDigitC = natChars m := fun m => by
    rw [takeWhile_app_all _ _ (natChars_all_digits m), takeWhile_noDigit h, List.append_nil]
  have hdp : ∀ m : Nat, (natChars m ++ rest).dropWhile isDigitC = rest := fun m => by
    rw [dropWhile_app_all _ _ (natChars_all_digits m), dropWhile_noDigit h]
  by_cases hi : i < 0
  · rw [intChars, if_pos hi, List.cons_append]
    simp only [parseNumber, List.tail_cons]
    simp [htk i.natAbs, hdp i.natAbs, natChars_ne_nil, digitsToNat_natChars]
    rw [abs_of_nonpos (by omega)]
    ring
  · rw [intChars, if_neg hi]
    obtain ⟨c, tl, hct, hd⟩ := natChars_cons i.toNat
    have hc : ¬ (c = '-') := (isDigitC_ne hd).2.2.2.2.2.2.1
    rw [hct, List.cons_append]
    simp only [parseNumber, List.tail_cons]
    rw [← List.cons_append, ← hct]
    simp [hc, htk i.toNat, hdp i.toNat, natChars_ne_nil, digitsToNat_natChars]
    omega

theorem mkData (s : String) : (⟨s.data⟩ : String) = s := by cases s; rfl

theorem serJson_null : serJson .null = ['n', 'u', 'l', 'l'] := by rw [serJson]

theorem serJson_true : serJson (.bool true) = ['t', 'r', 'u', 'e'] := by rw [serJson]

theorem serJson_false : serJson (.bool false) = ['f', 'a', 'l', 's', 'e'] := by rw [serJson]

theorem serJson_num (i : Int) : serJson (.num i) = intChars i := by rw [serJson]

theorem serJson_str (s : String) :
    serJson (.str s) = '"' :: (s.data.flatMap escapeChar ++ ['"']) := by rw [serJson]

theorem serJson_arr (xs : List Json) :
    serJson (.arr xs) = '[' :: (serItems xs ++ [']']) := by rw [serJson]

theorem serJson_obj (fs : List (String × Json)) :
    serJson (.obj fs) = '{' :: (serFields fs ++ ['}']) := by rw [serJson]

theorem serItems_nil : serItems [] = [] := by rw [serItems]

theorem serFields_nil : serFields [] = [] := by rw [serFields]

theorem serItems_one (x : Json) : serItems [x] = serJson x := by rw [serItems]

theorem serItems_cons (x y : Json) (ys : List Json) :
    serItems (x :: y :: ys) = serJson x ++ ',' :: serItems (y :: ys) := by rw [serItems]

theorem serKV_def (k : String) (v : Json) :
    serKV k v = '"' :: (k.data.flatMap escapeChar ++ '"' :: ':' :: serJson v) := by rw [serKV]

theorem serFields_one (k : String) (v : Json) : serFields [(k, v)] = serKV k v := by
  rw [serFields]

theorem serFields_cons (k : String) (v : Json) (m : String × Json)
    (ms : List (String × Json)) :
    serFields ((k, v) :: m :: ms) = serKV k v ++ ',' :: serFields (m :: ms) := by
  rw [serFields]

theorem serJson_head (v : Json) :
    ∃ c tl, serJson v = c :: tl ∧ c ≠ ']' ∧ c ≠ '}' := by
  cases v with
  | null => exact ⟨'n', _, serJson_null, by decide, by decide⟩
  | bool b =>
    cases b with
    | false => exact ⟨'f', _, serJson_false, by decide, by decide⟩
    | true => exact ⟨'t', _, serJson_true, by decide, by decide⟩
  | num i =>
    obtain ⟨c, tl, h, hd⟩ := intChars_cons i
    rcases hd with hd | hd
    · have hn := isDigitC_ne hd
      exact ⟨c, tl, by rw [serJson_num, h], hn.2.2.2.2.2.2.2.1, hn.2.2.2.2.2.2.2.2.1⟩
    · subst hd; exact ⟨'-', tl, by rw [serJson_num, h], by decide, by decide⟩
  | str s => exact ⟨'"', _, serJson_str s, by decide, by decide⟩
  | arr xs => exact ⟨'[', _, serJson_arr xs, by decide, by decide⟩
  | obj fs => exact ⟨'{', _, serJson_obj fs, by decide, by decide⟩

/-- A serialized value is never empty. -/
theorem serJson_ne_nil (v : Json) : serJson v ≠ [] := by
  obtain ⟨c, tl, h, _, _⟩ := serJson_head v
  rw [h]; simp

theorem delimOk_comma (r : List Char) : delimOk (',' :: r) := Or.inl rfl

theorem delimOk_rbracket (r : List Char) : delimOk (']' :: r) := Or.inr (Or.inl rfl)

theorem delimOk_rbrace (r : List Char) : delimOk ('}' :: r) := Or.inr (Or.inr rfl)

theorem delimOk_noDigit {r : List Char} (h : delimOk r) : noDigitHead r := by
  cases r with
  | nil => trivial
  | cons c tl =>
    show isDigitC c = false
    rcases h with h | h | h <;> subst h <;> rfl

theorem serItems_mem_le (l : List Json) (x : Json) (hx : x ∈ l) :
    (serJson x).length ≤ (serItems l).length := by
  induction l with
  | nil => cases hx
  | cons a tl ih =>
    cases tl with
    | nil =>
      rw [List.mem_singleton] at hx; subst hx; rw [serItems_one]
    | cons b bs =>
      rw [serItems_cons, List.length_append, List.length_cons]
      rcases List.mem_cons.mp hx with hx | hx
      · subst hx; omega
      · have := ih hx; omega

theorem serItems_length_ge (l : List Json) : l.length ≤ (serItems l).length + 1 := by
  induction l with
  | nil => simp
  | cons a tl ih =>
    have h1 : 0 < (serJson a).length := List.length_pos.mpr (serJson_ne_nil a)
    cases tl with
    | nil => rw [serItems_one]; simp
    | cons b bs =>
      rw [serItems_cons, List.length_append, List.length_cons]
      simp only [List.length_cons] at ih ⊢
      omega

theorem serKV_length (k : String) (v : Json) :
    (serKV k v).length = (k.data.flatMap escapeChar).length + 3 + (serJson v).length := by
  rw [serKV_def]; simp; omega

theorem serFields_mem_le (fs : List (String × Json)) (kv : String × Json) (hkv : kv ∈ fs) :
    (serJson kv.2).length ≤ (serFields fs).length := by
  induction fs with
  | nil => cases hkv
  | cons a tl ih =>
    obtain ⟨k, v⟩ := a
    cases tl with
    | nil =>
      rw [List.mem_singleton] at hkv; subst hkv
      rw [serFields_one, serKV_length]; dsimp only; omega
    | cons b bs =>
      rw [serFields_cons, List.length_append, List.length_cons, serKV_length]
      rcases List.mem_cons.mp hkv with hkv | hkv
      · subst hkv; dsimp only; omega
      · have := ih hkv; omega

theorem serFields_length_ge (fs : List (String × Json)) :
    fs.length ≤ (serFields fs).length + 1 := by
  induction fs with
  | nil => simp
  | cons a tl ih =>
    obtain ⟨k, v⟩ := a
    cases tl with
    | nil => rw [serFields_one, serKV_length]; simp
    | cons b bs =>
      rw [serFields_cons, List.length_append, List.length_cons, serKV_length]
      simp only [List.length_cons] at ih ⊢
      omega

theorem parseItemsF_ser (pv : List Char → Option (Json × List Char)) :
    ∀ (l : List Json) (fuel : Nat) (rest : List Char), l ≠ [] →
      (∀ x ∈ l, ∀ r, delimOk r → pv (serJson x ++ r) = some (x, r)) →
      l.length ≤ fuel →
      parseItemsF pv fuel (serItems l ++ ']' :: rest) = some (l, rest) := by
  intro l
  induction l with
  | nil => intro fuel rest hne; exact absurd rfl hne
  | cons x xs ih =>
    intro fuel rest _ hpv hfl
    cases fuel with
    | zero => simp at hfl
    | succ f =>
      cases xs with
      | nil =>
        rw [serItems_one]
        simp only [parseItemsF]
        rw [hpv x (by simp) (']' :: rest) (delimOk_rbracket rest)]
        simp
      | cons y ys =>
        have hin : serItems (x :: y :: ys) ++ ']' :: rest =
            serJson x ++ ',' :: (serItems (y :: ys) ++ ']' :: rest) := by
          rw [serItems_cons]; simp
        rw [hin]
        simp only [parseItemsF]
        rw [hpv x (by simp) _ (delimOk_comma _)]
        have hrec := ih f rest (by simp) (fun z hz r hr => hpv z (by simp [hz]) r hr)
          (by simp only [List.length_cons] at hfl ⊢; omega)
        simp [hrec]

theorem parseFieldsF_ser (pv : List Char → Option (Json × List Char)) :
    ∀ (fs : List (String × Json)) (fuel : Nat) (rest : List Char), fs ≠ [] →
      (∀ kv ∈ fs, ∀ r, delimOk r → pv (serJson kv.2 ++ r) = some (kv.2, r)) →
      fs.length ≤ fuel →
      parseFieldsF pv fuel (serFields fs ++ '}' :: rest) = some (fs, rest) := by
  intro fs
  induction fs with
  | nil => intro fuel rest hne; exact absurd rfl hne
  | cons a tl ih =>
    intro fuel rest _ hpv hfl
    obtain ⟨k, v⟩ := a
    cases fuel with
    | zero => simp at hfl
    | succ f =>
      cases tl with
      | nil =>
        have hin : serFields [(k, v)] ++ '}' :: rest =
            '"' :: (k.data.flatMap escapeChar ++ '"' :: ':' :: (serJson v ++ '}' :: rest)) := by
          rw [serFields_one, serKV_def]; simp
        rw [hin]
        simp only [parseFieldsF]
        rw [parseStringBody_ser]
        have hv := hpv (k, v) (by simp) ('}' :: rest) (delimOk_rbrace rest)
        simp [hv, mkData]
      | cons m ms =>
        have hin : serFields ((k, v) :: m :: ms) ++ '}' :: rest =
            '"' :: (k.data.flatMap escapeChar ++ '"' :: ':' ::
              (serJson v ++ ',' :: (serFields (m :: ms) ++ '}' :: rest))) := by
          rw [serFields_cons, serKV_def]; simp
        rw [hin]
        simp only [parseFieldsF]
        rw [parseStringBody_ser]
        have hv := hpv (k, v) (by simp) (',' :: (serFields (m :: ms) ++ '}' :: rest)) (delimOk_comma _)
        have hrec := ih f rest (by simp) (fun z hz r hr => hpv z (by simp [hz]) r hr)
          (by simp only [List.length_cons] at hfl ⊢; omega)
        simp [hv, hrec, mkData]

theorem parseValue_ser :
    ∀ (fuel : Nat) (v : Json) (rest : List Char), (serJson v).length < fuel → delimOk rest →
      parseValue fuel (serJson v ++ rest) = some (v, rest) := by
  intro fuel
  induction fuel with
  | zero => intro v rest h _; omega
  | succ fuel ih =>
    intro v rest hlen hdel
    cases v with
    | null =>
      rw [serJson_null]
      simp [parseValue, stripPre]
    | bool b =>
      cases b with
      | false =>
        rw [serJson_false]
        simp [parseValue, stripPre]
      | true =>
        rw [serJson_true]
        simp [parseValue, stripPre]
    | num i =>
      obtain ⟨c, tl, hct, hd⟩ := intChars_cons i
      have h6 : c ≠ 'n' ∧ c ≠ 't' ∧ c ≠ 'f' ∧ c ≠ '"' ∧ c ≠ '[' ∧ c ≠ '{' := by
        rcases hd with hd | hd
        · have hn := isDigitC_ne hd
          exact ⟨hn.1, hn.2.1, hn.2.2.1, hn.2.2.2.1, hn.2.2.2.2.1, hn.2.2.2.2.2.1⟩
        · subst hd
          exact ⟨by decide, by decide, by decide, by decide, by decide, by decide⟩
      rw [serJson_num, hct, List.cons_append]
      simp only [parseValue]
      rw [if_neg h6.1, if_neg h6.2.1, if_neg h6.2.2.1, if_neg h6.2.2.2.1,
        if_neg h6.2.2.2.2.1, if_neg h6.2.2.2.2.2]
      rw [← List.cons_append, ← hct]
      exact parseNumber_ser i rest (delimOk_noDigit hdel)
    | str s =>
      rw [show serJson (.str s) ++ rest =
          '"' :: (s.data.flatMap escapeChar ++ '"' :: rest) from by
        rw [serJson_str]; simp]
      simp [parseValue, parseStringBody_ser, mkData]
    | arr xs =>
      cases xs with
      | nil =>
        rw [show serJson (.arr []) ++ rest = '[' :: ']' :: rest from by
          rw [serJson_arr, serItems_nil]; rfl]
        simp [parseValue]
      | cons x xs' =>
        have hsi : ∃ c0 t0, serItems (x :: xs') = c0 :: t0 ∧ c0 ≠ ']' := by
          obtain ⟨c0, t0, h0, hne1, _⟩ := serJson_head x
          cases xs' with
          | nil => exact ⟨c0, t0, by rw [serItems_one, h0], hne1⟩
          | cons y ys =>
            exact ⟨c0, t0 ++ ',' :: serItems (y :: ys), by
              rw [serItems_cons, h0]; rfl, hne1⟩
        obtain ⟨c0, t0, h0, hne⟩ := hsi
        have hlx : (serJson (.arr (x :: xs'))).length = (serItems (x :: xs')).length + 2 := by
          rw [serJson_arr]; simp
        have hitems := parseItemsF_ser (parseValue fuel) (x :: xs') fuel rest (by simp)
          (fun z hz r hr => ih z r
            (by have := serItems_mem_le (x :: xs') z hz; omega) hr)
          (by have := serItems_length_ge (x :: xs'); omega)
        rw [show serJson (.arr (x :: xs')) ++ rest =
            '[' :: (serItems (x :: xs') ++ ']' :: rest) from by
          rw [serJson_arr]; simp]
        simp only [parseValue]
        rw [h0, List.cons_append] at hitems ⊢
        simp [hne, hitems]
    | obj fs =>
      cases fs with
      | nil =>
        rw [show serJson (.obj []) ++ rest = '{' :: '}' :: rest from by
          rw [serJson_obj, serFields_nil]; rfl]
        simp [parseValue]
      | cons f fs' =>
        have hsf : ∃ t0, serFields (f :: fs') = '"' :: t0 := by
          obtain ⟨k, v⟩ := f
          cases fs' with
          | nil =>
            exact ⟨k.data.flatMap escapeChar ++ '"' :: ':' :: serJson v, by
              rw [serFields_one, serKV_def]⟩
          | cons m ms =>
            exact ⟨(k.data.flatMap escapeChar ++ '"' :: ':' :: serJson v) ++
                ',' :: serFields (m :: ms), by
              rw [serFields_cons, serKV_def]; rfl⟩
        obtain ⟨t0, h0⟩ := hsf
        have hlx : (serJson (.obj (f :: fs'))).length = (serFields (f :: fs')).length + 2 := by
          rw [serJson_obj]; simp
        have hflds := parseFieldsF_ser (parseValue fuel) (f :: fs') fuel rest (by simp)
          (fun z hz r hr => ih z.2 r
            (by have := serFields_mem_le (f :: fs') z hz; omega) hr)
          (by have := serFields_length_ge (f :: fs'); omega)
        rw [show serJson (.obj (f :: fs')) ++ rest =
            '{' :: (serFields (f :: fs') ++ '}' :: rest) from by
          rw [serJson_obj]; simp]
        simp only [parseValue]
        rw [h0, List.cons_append] at hflds ⊢
        simp [show ¬ (('"' : Char) = '}') by decide, hflds]

/-- JSON.parse inverts JSON.stringify on every value of the model. -/
theorem JSONparse_stringify (v : Json) : JSONparse (JSONstringify v) = some v := by
  unfold JSONparse JSONstringify
  rw [show (⟨serJson v⟩ : String).data = serJson v from rfl]
  have h := parseValue_ser ((serJson v).length + 1) v [] (by omega) trivial
  rw [List.append_nil] at h
  rw [h]

theorem isPrefixOf_app (p r : List Char) : p.isPrefixOf (p ++ r) = true := by
  induction p with
  | nil => simp [List.isPrefixOf]
  | cons a t ih => simp [List.isPrefixOf, ih]

theorem data_append (a b : String) : (a ++ b).data = a.data ++ b.data := by
  cases a; cases b; rfl

theorem strStartsWith_app (px s : String) : strStartsWith (px ++ s) px = true := by
  unfold strStartsWith
  rw [data_append]
  exact isPrefixOf_app px.data s.data

theorem strDropN_app (px s : String) : strDropN (px ++ s) px.length = s := by
  unfold strDropN
  rw [data_append, show px.length = px.data.length from rfl, List.drop_left]

/-- C1: for every document (JSON value) and every prefix string, decoding the
encoding round-trips: `decodeDocument (encodeDocument doc px) px` returns the
document unchanged, field for field, nested mappings included. -/
theorem C1_decode_encode_roundtrip (doc : Json) (px : String) :
    decodeDocument (encodeDocument doc px) px = some doc := by
  unfold decodeDocument encodeDocument
  rw [if_pos (strStartsWith_app px (JSONstringify doc)), strDropN_app]
  exact JSONparse_stringify doc

/-- C7: `decodeDocument` is a total function into Document-or-none (it never
raises, by construction of the embedding), and it returns `none` exactly when
the payload does not start with the prefix or the remainder fails to parse. -/
theorem C7_decode_none_iff (messageText px : String) :
    decodeDocument messageText px = none ↔
      (strStartsWith messageText px = false ∨
        JSONparse (strDropN messageText px.length) = none) := by
  unfold decodeDocument
  by_cases h : strStartsWith messageText px
  · rw [if_pos h]
    simp [h]
  · rw [if_neg h]
    simp only [Bool.not_eq_true] at h
    simp [h]

/-! ### Filter-engine lemmas and claims -/

theorem except_bind_ok (a : α) (f : α → Except ε β) :
    (Except.ok a : Except ε α) >>= f = f a := rfl

theorem except_bind_error (e : ε) (f : α → Except ε β) :
    (Except.error e : Except ε α) >>= f = .error e := rfl

theorem except_bind_ok' (a : α) (f : α → Except ε β) :
    Except.bind (Except.ok a) f = f a := rfl

theorem except_pure (a : α) : (pure a : Except ε α) = .ok a := rfl

/-- A filter entry that evaluates through leaves the rest's verdict. -/
theorem matchesFilter_cons_true {rx : RxOracle} {doc : Doc} {key : String} {value : Json}
    {rest : List (String × Json)}
    (hm : matchesFilter rx doc ((key, value) :: rest) = .ok true) :
    matchesFilter rx doc rest = .ok true ∧
      ((key == "_id") && !(jsStrictEqO (mapGet doc "_id") value)) = false := by
  simp only [matchesFilter] at hm
  by_cases hc : ((key == "_id") && !(jsStrictEqO (mapGet doc "_id") value)) = true
  · rw [if_pos hc] at hm
    exact absurd hm (by simp)
  · refine ⟨?_, by simpa using hc⟩
    rw [if_neg hc] at hm
    cases value with
    | obj ops =>
      dsimp only at hm
      cases hop : matchesOperators rx (getNestedValue (.obj doc) key) ops with
      | error e => rw [hop, except_bind_error] at hm; exact absurd hm (by simp)
      | ok b =>
        rw [hop, except_bind_ok] at hm
        cases b with
        | false => exact absurd hm (by simp)
        | true => simpa using hm
    | arr elems =>
      dsimp only at hm
      by_cases ha : elems.any (fun e => jsIncludesEq (getNestedValue (.obj doc) key) e) = true
      · rw [if_pos ha] at hm; exact hm
      · rw [if_neg ha] at hm; exact absurd hm (by simp)
    | null =>
      dsimp only at hm
      by_cases ha : jsStrictEqO (getNestedValue (.obj doc) key) .null = true
      · rw [if_pos ha] at hm; exact hm
      · rw [if_neg ha] at hm; exact absurd hm (by simp)
    | bool b =>
      dsimp only at hm
      by_cases ha : jsStrictEqO (getNestedValue (.obj doc) key) (.bool b) = true
      · rw [if_pos ha] at hm; exact hm
      · rw [if_neg ha] at hm; exact absurd hm (by simp)
    | num n =>
      dsimp only at hm
      by_cases ha : jsStrictEqO (getNestedValue (.obj doc) key) (.num n) = true
      · rw [if_pos ha] at hm; exact hm
      · rw [if_neg ha] at hm; exact absurd hm (by simp)
    | str s =>
      dsimp only at hm
      by_cases ha : jsStrictEqO (getNestedValue (.obj doc) key) (.str s) = true
      · rw [if_pos ha] at hm; exact hm
      · rw [if_neg ha] at hm; exact absurd hm (by simp)

/-- C8: the `_id` condition of a predicate is decided by strict identity
equality between the document's `_id` and the predicate's value — even when
that value is an operator object — so a predicate containing an `_id` entry
matches only if the document's `_id` strictly equals that entry's value. -/
theorem C8_id_strict_equality (rx : RxOracle) (doc : Doc) (filter : List (String × Json))
    (v : Json) (hmem : ("_id", v) ∈ filter)
    (hm : matchesFilter rx doc filter = .ok true) :
    ∃ j, mapGet doc "_id" = some j ∧ jsStrictEq j v = true := by
  induction filter with
  | nil => cases hmem
  | cons kv rest ih =>
    obtain ⟨key, value⟩ := kv
    obtain ⟨hrest, hcond⟩ := matchesFilter_cons_true hm
    rcases List.mem_cons.mp hmem with heq | hmem'
    · injection heq with hk hv
      subst hk; subst hv
      have hcond' : jsStrictEqO (mapGet doc "_id") v = true := by
        revert hcond
        cases jsStrictEqO (mapGet doc "_id") v <;> simp
      cases hj : mapGet doc "_id" with
      | none => rw [hj] at hcond'; exact absurd hcond' (by simp [jsStrictEqO])
      | some j =>
        rw [hj] at hcond'
        exact ⟨j, rfl, by simpa [jsStrictEqO] using hcond'⟩
    · exact ih hmem' hrest

/-- C8 witness. -/
theorem C8_id_strict_equality_witness :
    ∃ j, mapGet [("_id", Json.str "a"), ("_table", Json.str "users")] "_id" = some j ∧
      jsStrictEq j (.str "a") = true :=
  C8_id_strict_equality (fun _ _ => some true)
    [("_id", Json.str "a"), ("_table", Json.str "users")]
    [("_id", Json.str "a")] (.str "a") (by simp) rfl

/-- C10: operator keys other than the nine recognized ones are ignored by
matchesOperators (the `default: break` arm); an operator object whose keys
are all unrecognized constrains nothing and matches every value. -/
theorem C10_unknown_operators_ignored (rx : RxOracle) (docValue : Option Json)
    (ops : List (String × Json))
    (h : ∀ p ∈ ops, p.1 ∉ (["$gt", "$gte", "$lt", "$lte", "$ne", "$in", "$nin",
      "$regex", "$exists"] : List String)) :
    matchesOperators rx docValue ops = .ok true := by
  induction ops with
  | nil => rfl
  | cons p rest ih =>
    obtain ⟨op, opValue⟩ := p
    have hop := h (op, opValue) (List.mem_cons_self _ _)
    simp only [List.mem_cons, List.mem_singleton, not_or] at hop
    obtain ⟨h1, h2, h3, h4, h5, h6, h7, h8, h9, _⟩ := hop
    have htag : opTag op = 9 := by
      simp [opTag, h1, h2, h3, h4, h5, h6, h7, h8, h9]
    have hstep : opStep rx docValue op opValue = none := by
      unfold opStep
      rw [htag]
    rw [matchesOperators, hstep]
    exact ih (fun q hq => h q (List.mem_cons_of_mem _ hq))

/-- C10 witness. -/
theorem C10_unknown_operators_ignored_witness :
    matchesOperators (fun _ _ => some true) (some (.num 5))
      [("$foo", .num 1), ("$unknown", .null)] = .ok true :=
  C10_unknown_operators_ignored (fun _ _ => some true) (some (.num 5))
    [("$foo", .num 1), ("$unknown", .null)] (by decide)

theorem getNestedValue_table (doc : Doc) :
    getNestedValue (.obj doc) "_table" = mapGet doc "_table" := rfl

theorem matchesFilter_tableOnly (rx : RxOracle) (doc : Doc) (table : String) :
    matchesFilter rx doc [("_table", .str table)] =
      .ok (jsStrictEqO (mapGet doc "_table") (.str table)) := by
  simp only [matchesFilter]
  rw [if_neg (by simp), getNestedValue_table]
  cases h : jsStrictEqO (mapGet doc "_table") (.str table) <;> simp

theorem scanCache_tableOnly (rx : RxOracle) (table : String) (cache : List (String × Doc)) :
    scanCache rx [("_table", .str table)] cache = .ok (tableDocs table cache) := by
  induction cache with
  | nil => rfl
  | cons e rest ih =>
    obtain ⟨k, d⟩ := e
    simp only [scanCache, matchesFilter_tableOnly, bind, except_bind_ok', ih]
    cases h : jsStrictEqO (mapGet d "_table") (.str table) <;>
      simp [tableDocs, h, except_pure]

theorem mapSet_nil (k : String) (v : α) : mapSet [] k v = [(k, v)] := rfl

theorem findOp_empty_filter (env : Env) (table : String) (s : DBState) :
    findOp env [] table s = .ok (tableDocs table s.documentCache) := by
  obtain ⟨mi, cache, imi⟩ := s
  cases cache with
  | nil => rfl
  | cons e rest =>
    simp only [findOp, mapSet_nil]
    rw [scanCache_tableOnly]
    simp [bind, except_bind_ok', except_pure]

theorem tableDocs_sat (table : String) (cache : List (String × Doc)) :
    ∀ d ∈ tableDocs table cache, jsStrictEqO (mapGet d "_table") (.str table) = true := by
  intro d hd
  simp only [tableDocs, List.mem_map] at hd
  obtain ⟨e, he, hed⟩ := hd
  have := (List.mem_filter.mp he).2
  rw [← hed]
  simpa using this

theorem filterDocs_tableOnly_sat (rx : RxOracle) (table : String) (docs : List Doc)
    (h : ∀ d ∈ docs, jsStrictEqO (mapGet d "_table") (.str table) = true) :
    filterDocs rx [("_table", .str table)] docs = .ok docs := by
  induction docs with
  | nil => rfl
  | cons d rest ih =>
    simp only [filterDocs, matchesFilter_tableOnly, bind, except_bind_ok',
      h d (List.mem_cons_self _ _), ih (fun z hz => h z (List.mem_cons_of_mem _ hz))]
    simp [except_pure]

theorem matchedDocs_empty_filter (env : Env) (table : String) (s : DBState) :
    matchedDocs env [] table s = .ok (tableDocs table s.documentCache) := by
  simp only [matchedDocs, findOp_empty_filter, bind, except_bind_ok', mapSet_nil]
  exact filterDocs_tableOnly_sat env.rx table _ (tableDocs_sat table s.documentCache)

/-- C9: the empty predicate matches every document; hence `find` with the
empty filter returns exactly the cached documents of the table (in cache
order), the match set update/delete resolve for the empty filter is every
document of the table, and deleteAll (= dropTable) is delete with the empty
filter. -/
theorem C9_empty_filter_matches_all :
    (∀ (rx : RxOracle) (doc : Doc), matchesFilter rx doc [] = .ok true) ∧
    (∀ (env : Env) (table : String) (s : DBState),
      findOp env [] table s = .ok (tableDocs table s.documentCache)) ∧
    (∀ (env : Env) (table : String) (s : DBState),
      matchedDocs env [] table s = .ok (tableDocs table s.documentCache)) ∧
    (∀ (env : Env) (px table : String) (s : DBState),
      deleteAllOp env px table s = deleteOp env px [] table s ∧
      dropTableOp env px table s = deleteAllOp env px table s) :=
  ⟨fun _ _ => rfl, findOp_empty_filter, matchedDocs_empty_filter,
    fun _ _ _ _ => ⟨rfl, rfl⟩⟩

/-! ### Map lemmas and the update-shape claim -/

theorem mapGet_map_upd {m : List (String × α)} {k : String} {v : α}
    (h : m.any (fun e => e.1 == k) = true) :
    mapGet (m.map (fun e => if e.1 == k then (k, v) else e)) k = some v := by
  induction m with
  | nil => simp at h
  | cons e rest ih =>
    obtain ⟨k0, v0⟩ := e
    simp only [List.map_cons]
    dsimp only
    by_cases hk : (k0 == k) = true
    · rw [if_pos hk]
      simp [mapGet]
    · rw [if_neg hk]
      simp only [List.any_cons, Bool.or_eq_true] at h
      rcases h with h | h
      · exact absurd h hk
      · simp only [mapGet, hk, if_false, ite_false]
        rw [if_neg (by simp)]
        exact ih h

theorem mapGet_append_self {m : List (String × α)} {k : String} {v : α}
    (h : m.any (fun e => e.1 == k) = false) :
    mapGet (m ++ [(k, v)]) k = some v := by
  induction m with
  | nil => simp [mapGet]
  | cons e rest ih =>
    obtain ⟨k0, v0⟩ := e
    simp only [List.any_cons, Bool.or_eq_false_iff] at h
    simp [mapGet, h.1, ih h.2]

theorem mapGet_map_ne {m : List (String × α)} {k k' : String} {v : α} (hne : k' ≠ k) :
    mapGet (m.map (fun e => if e.1 == k then (k, v) else e)) k' = mapGet m k' := by
  induction m with
  | nil => rfl
  | cons e rest ih =>
    obtain ⟨k0, v0⟩ := e
    simp only [List.map_cons]
    dsimp only
    by_cases hk : (k0 == k) = true
    · have hk0 : k0 = k := by simpa using hk
      subst hk0
      have hne' : (k0 == k') = false := by simpa using fun h => hne h.symm
      rw [if_pos hk]
      simp only [mapGet]
      rw [if_neg (by simpa using hne'), if_neg (by simpa using hne')]
      exact ih
    · rw [if_neg hk]
      by_cases hk' : (k0 == k') = true
      · simp only [mapGet]
        rw [if_pos (by simpa using hk'), if_pos (by simpa using hk')]
      · simp only [mapGet]
        rw [if_neg (by simpa using hk'), if_neg (by simpa using hk')]
        exact ih

theorem mapGet_append_ne {m : List (String × α)} {k k' : String} {v : α} (hne : k' ≠ k) :
    mapGet (m ++ [(k, v)]) k' = mapGet m k' := by
  induction m with
  | nil =>
    have : (k == k') = false := by simpa using fun h => hne h.symm
    simp [mapGet, this]
  | cons e rest ih =>
    obtain ⟨k0, v0⟩ := e
    by_cases hk' : (k0 == k') = true
    · simp [mapGet, hk']
    · simp [mapGet, hk', ih]

theorem mapGet_mapSet_self (m : List (String × α)) (k : String) (v : α) :
    mapGet (mapSet m k v) k = some v := by
  unfold mapSet
  by_cases h : m.any (fun e => e.1 == k) = true
  · rw [if_pos h]; exact mapGet_map_upd h
  · rw [if_neg h]; exact mapGet_append_self (by rw [Bool.not_eq_true] at h; exact h)

theorem mapGet_mapSet_ne (m : List (String × α)) (k k' : String) (v : α) (hne : k' ≠ k) :
    mapGet (mapSet m k v) k' = mapGet m k' := by
  unfold mapSet
  by_cases h : m.any (fun e => e.1 == k) = true
  · rw [if_pos h]; exact mapGet_map_ne hne
  · rw [if_neg h]; exact mapGet_append_ne hne

theorem mapGet_mapDel_self (m : List (String × α)) (k : String) :
    mapGet (mapDel m k) k = none := by
  induction m with
  | nil => rfl
  | cons e rest ih =>
    obtain ⟨k0, v0⟩ := e
    by_cases hk : (k0 == k) = true
    · simp [mapDel, mapGet, hk] at ih ⊢
      simpa [mapDel] using ih
    · simp [mapDel, mapGet, hk] at ih ⊢
      simpa [mapDel] using ih

theorem mapGet_mapDel_ne (m : List (String × α)) (k k' : String) (hne : k' ≠ k) :
    mapGet (mapDel m k) k' = mapGet m k' := by
  induction m with
  | nil => rfl
  | cons e rest ih =>
    obtain ⟨k0, v0⟩ := e
    by_cases hk : (k0 == k) = true
    · have hk0 : k0 = k := by simpa using hk
      subst hk0
      have hne' : (k0 == k') = false := by simpa using fun h => hne h.symm
      simp [mapDel, mapGet, hk, hne'] at ih ⊢
      simpa [mapDel] using ih
    · by_cases hk' : (k0 == k') = true
      · simp [mapDel, mapGet, hk, hk']
      · simp [mapDel, mapGet, hk, hk'] at ih ⊢
        simpa [mapDel] using ih

theorem mapSet_any_self (m : List (String × α)) (k : String) (v : α) :
    (mapSet m k v).any (fun e => e.1 == k) = true := by
  unfold mapSet
  by_cases h : m.any (fun e => e.1 == k) = true
  · rw [if_pos h]
    induction m with
    | nil => simp at h
    | cons e rest ih =>
      obtain ⟨k0, v0⟩ := e
      simp only [List.map_cons]
      dsimp only
      by_cases hk : (k0 == k) = true
      · rw [if_pos hk]
        simp only [List.any_cons, Bool.or_eq_true]
        left
        simp
      · rw [if_neg hk]
        simp only [List.any_cons, Bool.or_eq_true] at h
        rcases h with h | h
        · exact absurd h hk
        · simp only [List.any_cons, Bool.or_eq_true]
          right
          exact ih h
  · rw [if_neg h]
    simp only [List.any_append, List.any_cons, List.any_nil, Bool.or_eq_true]
    right
    left
    simp

theorem mapSet_all_eq (m : List (String × α)) (k : String) (v : α) :
    ∀ p ∈ mapSet m k v, p.1 = k → p.2 = v := by
  intro p hp hpk
  unfold mapSet at hp
  by_cases h : m.any (fun e => e.1 == k) = true
  · rw [if_pos h] at hp
    rw [List.mem_map] at hp
    obtain ⟨e, he, hep⟩ := hp
    by_cases hk : (e.1 == k) = true
    · rw [if_pos hk] at hep; rw [← hep]
    · rw [if_neg hk] at hep
      subst hep
      exact absurd (by simp [hpk]) hk
  · rw [if_neg h] at hp
    rw [List.mem_append] at hp
    rcases hp with hp | hp
    · rw [Bool.not_eq_true] at h
      have hfalse : (p.1 == k) = false := by
        cases hall : (p.1 == k) with
        | false => rfl
        | true =>
          have : m.any (fun e => e.1 == k) = true :=
            List.any_eq_true.mpr ⟨p, hp, hall⟩
          rw [this] at h
          cases h
      rw [hpk] at hfalse
      simp at hfalse
    · rw [List.mem_singleton] at hp; subst hp; rfl

theorem mapSet_mem_keys (m : List (String × α)) (k : String) (v : α) :
    ∀ p ∈ mapSet m k v, p.1 = k ∨ ∃ q ∈ m, p.1 = q.1 := by
  intro p hp
  unfold mapSet at hp
  by_cases h : m.any (fun e => e.1 == k) = true
  · rw [if_pos h, List.mem_map] at hp
    obtain ⟨e, he, hep⟩ := hp
    by_cases hk : (e.1 == k) = true
    · rw [if_pos hk] at hep; left; rw [← hep]
    · rw [if_neg hk] at hep; right; exact ⟨e, he, by rw [hep]⟩
  · rw [if_neg h, List.mem_append] at hp
    rcases hp with hp | hp
    · right; exact ⟨p, hp, rfl⟩
    · rw [List.mem_singleton] at hp; subst hp; left; rfl

theorem mapGet_none_keys (m : List (String × α)) (k : String) (h : mapGet m k = none) :
    ∀ p ∈ m, p.1 ≠ k := by
  intro p hp
  induction m with
  | nil => cases hp
  | cons e rest ih =>
    obtain ⟨k0, v0⟩ := e
    by_cases hk : (k0 == k) = true
    · simp [mapGet, hk] at h
    · rcases List.mem_cons.mp hp with hp0 | hp'
      · subst hp0; simpa using hk
      · exact ih (by simpa [mapGet, hk] using h) hp'

theorem deepMergeGo_frame (t : List (String × Json)) (k : String) :
    ∀ (src out : List (String × Json)), (∀ p ∈ src, p.1 ≠ k) →
      mapGet (deepMergeGo t out src) k = mapGet out k := by
  intro src
  induction src with
  | nil => intro out _; rw [deepMergeGo]
  | cons p rest ih =>
    intro out h
    obtain ⟨k0, v0⟩ := p
    have hk0 : k0 ≠ k := h (k0, v0) (List.mem_cons_self _ _)
    rw [deepMergeGo]
    rw [ih _ (fun q hq => h q (List.mem_cons_of_mem _ hq))]
    exact mapGet_mapSet_ne _ _ _ _ (fun hkk => hk0 hkk.symm)

theorem deepMergeGo_lastVal (t : List (String × Json)) (k : String) (w : Json)
    (hw : ∀ vf, w ≠ .obj vf) :
    ∀ (src out : List (String × Json)), src.any (fun e => e.1 == k) = true →
      (∀ p ∈ src, p.1 = k → p.2 = w) →
      mapGet (deepMergeGo t out src) k = some w := by
  intro src
  induction src with
  | nil => intro out h; simp at h
  | cons p rest ih =>
    intro out hany hall
    obtain ⟨k0, v0⟩ := p
    rw [deepMergeGo]
    by_cases hr : rest.any (fun e => e.1 == k) = true
    · exact ih _ hr (fun q hq hqk => hall q (List.mem_cons_of_mem _ hq) hqk)
    · have hk0 : (k0 == k) = true := by
        simp only [List.any_cons, Bool.or_eq_true] at hany
        rcases hany with h | h
        · exact h
        · exact absurd h hr
      have hk0' : k0 = k := by simpa using hk0
      have hv0 : v0 = w := hall (k0, v0) (List.mem_cons_self _ _) hk0'
      subst hv0
      have hrest : ∀ p ∈ rest, p.1 ≠ k := by
        intro q hq hqk
        have : rest.any (fun e => e.1 == k) = true :=
          List.any_eq_true.mpr ⟨q, hq, by simp [hqk]⟩
        exact hr this
      rw [deepMergeGo_frame t k rest _ hrest]
      have hmv : mergeVal t k0 v0 = v0 := by
        cases v0 with
        | obj vf => exact absurd rfl (hw vf)
        | null => rw [mergeVal]; exact fun fs h => Json.noConfusion h
        | bool b => rw [mergeVal]; exact fun fs h => Json.noConfusion h
        | num n => rw [mergeVal]; exact fun fs h => Json.noConfusion h
        | str s => rw [mergeVal]; exact fun fs h => Json.noConfusion h
        | arr xs => rw [mergeVal]; exact fun fs h => Json.noConfusion h
      rw [hmv, hk0']
      exact mapGet_mapSet_self _ _ _

/-- The merged/replaced document always carries the original document's id:
`{...update, _id: doc._id}` forces it in both modes. -/
theorem mkUpdated_id (opts : UpdateOptions) (patch d : Doc) :
    mapGet (mkUpdated opts patch d) "_id" = some (.str (idOf d)) := by
  unfold mkUpdated
  by_cases hrep : opts.replace = true
  · rw [if_pos hrep]
    exact mapGet_mapSet_self _ _ _
  · rw [if_neg hrep]
    unfold deepMergeDoc
    exact deepMergeGo_lastVal d "_id" (.str (idOf d)) (fun _ h => by cases h) _ _
      (mapSet_any_self _ _ _) (mapSet_all_eq _ _ _)

/-- In replace mode every field other than `_id` comes solely from the
patch. -/
theorem mkUpdated_replace_frame (upsert : Bool) (patch d : Doc) (k : String)
    (hk : k ≠ "_id") :
    mapGet (mkUpdated ⟨upsert, true⟩ patch d) k = mapGet patch k := by
  unfold mkUpdated
  rw [if_pos rfl]
  exact mapGet_mapSet_ne _ _ _ _ hk

/-- In merge mode `_table` is preserved when the patch does not set it. -/
theorem mkUpdated_merge_table (upsert : Bool) (patch d : Doc)
    (h : mapGet patch "_table" = none) :
    mapGet (mkUpdated ⟨upsert, false⟩ patch d) "_table" = mapGet d "_table" := by
  unfold mkUpdated
  rw [if_neg (by simp)]
  unfold deepMergeDoc
  apply deepMergeGo_frame
  intro p hp
  rcases mapSet_mem_keys patch "_id" (.str (idOf d)) p hp with hid | ⟨q, hq, hpq⟩
  · rw [hid]; decide
  · rw [hpq]; exact mapGet_none_keys patch "_table" h q hq

/-- C4 counterexample: the claim "update never changes `table`" fails in
replace mode — `{...update, _id: doc._id}` drops `_table` when the patch
does not carry one (the spec's own replace example `{age:31, id}` drops it
too).  Concretely: replace-updating `{_id:"a", _table:"users", name:"John"}`
with patch `{age:31}` yields a document with NO `_table` field. -/
theorem C4_counterexample :
    mapGet (mkUpdated ⟨false, true⟩ [("age", Json.num 31)]
      [("_id", Json.str "a"), ("_table", Json.str "users"), ("name", Json.str "John")])
      "_table" = none ∧
    mapGet [("_id", Json.str "a"), ("_table", Json.str "users"),
      ("name", Json.str "John")] "_table" = some (.str "users") :=
  ⟨rfl, rfl⟩

/-- C4 (amended): every updated document keeps the original `_id` (both
modes force `_id := doc._id`); in replace mode every other field — `_table`
included — comes solely from the patch; in merge mode `_table` is unchanged
provided the patch itself has no `_table` field. -/
theorem C4_update_id_table_frame (patch d : Doc) :
    (∀ opts : UpdateOptions, mapGet (mkUpdated opts patch d) "_id" =
      some (.str (idOf d))) ∧
    (∀ (upsert : Bool) (k : String), k ≠ "_id" →
      mapGet (mkUpdated ⟨upsert, true⟩ patch d) k = mapGet patch k) ∧
    (∀ upsert : Bool, mapGet patch "_table" = none →
      mapGet (mkUpdated ⟨upsert, false⟩ patch d) "_table" = mapGet d "_table") :=
  ⟨fun opts => mkUpdated_id opts patch d,
   fun upsert k hk => mkUpdated_replace_frame upsert patch d k hk,
   fun upsert h => mkUpdated_merge_table upsert patch d h⟩

/-- C4 witness. -/
theorem C4_update_id_table_frame_witness :
    mapGet (mkUpdated ⟨false, true⟩ [("age", Json.num 31)]
      [("_id", Json.str "a"), ("_table", Json.str "users")]) "_id" =
        some (.str "a") ∧
    mapGet (mkUpdated ⟨false, true⟩ [("age", Json.num 31)]
      [("_id", Json.str "a"), ("_table", Json.str "users")]) "age" =
        mapGet [("age", Json.num 31)] "age" ∧
    mapGet (mkUpdated ⟨false, false⟩ [("age", Json.num 31)]
      [("_id", Json.str "a"), ("_table", Json.str "users")]) "_table" =
        mapGet [("_id", Json.str "a"), ("_table", Json.str "users")] "_table" := by
  refine ⟨?_, ?_, ?_⟩
  · exact (C4_update_id_table_frame [("age", Json.num 31)]
      [("_id", Json.str "a"), ("_table", Json.str "users")]).1 ⟨false, true⟩
  · exact (C4_update_id_table_frame [("age", Json.num 31)]
      [("_id", Json.str "a"), ("_table", Json.str "users")]).2.1 false "age" (by decide)
  · exact (C4_update_id_table_frame [("age", Json.num 31)]
      [("_id", Json.str "a"), ("_table", Json.str "users")]).2.2 false rfl

/-! ### The find / rehydration claim -/

/-- C6 counterexample: on the concrete empty-cache state whose message index
references channel message 5 (so channel history holds data), find returns
the empty result and reloadCacheFromIndex leaves the state untouched — no
rehydration pass that rebuilds the Index from channel history exists:
reloadCacheFromIndex's body is an empty conditional and consults nothing. -/
theorem C6_counterexample :
    findOp okEnv [] "users" c6State = .ok [] ∧
    reloadCacheFromIndex c6State = c6State ∧
    (reloadCacheFromIndex c6State).documentCache = [] ∧
    c6State.messageIndex = [("a", 5)] :=
  ⟨rfl, rfl, rfl, rfl⟩

/-- C6 (amended): when find runs on an empty cache it calls
reloadCacheFromIndex — a no-op on the state, consulting no channel
history — re-scans the unchanged (still empty) cache, and returns the empty
result. -/
theorem C6_find_empty_cache_noop (env : Env) (filter : List (String × Json))
    (table : String) (s : DBState) (h : s.documentCache = []) :
    findOp env filter table s = .ok [] ∧ reloadCacheFromIndex s = s := by
  obtain ⟨mi, cache, imi⟩ := s
  dsimp only at h
  subst h
  exact ⟨rfl, rfl⟩

/-- C6 witness. -/
theorem C6_find_empty_cache_noop_witness :
    findOp okEnv [("name", .str "John")] "users"
      { messageIndex := [], documentCache := [], indexMessageId := none } = .ok [] ∧
    reloadCacheFromIndex
      { messageIndex := [], documentCache := [], indexMessageId := none } =
      { messageIndex := [], documentCache := [], indexMessageId := none } :=
  C6_find_empty_cache_noop okEnv [("name", .str "John")] "users"
    { messageIndex := [], documentCache := [], indexMessageId := none } rfl

/-! ### The delete claim -/

theorem filter_congr_own {l : List α} {p q : α → Bool} (h : ∀ x ∈ l, p x = q x) :
    l.filter p = l.filter q := by
  induction l with
  | nil => rfl
  | cons a tl ih =>
    simp only [List.filter_cons]
    rw [h a (List.mem_cons_self _ _), ih (fun x hx => h x (List.mem_cons_of_mem _ hx))]

/-- The delete loop touches no key outside the processed documents' ids. -/
theorem deleteLoop_frame (env : Env) (docs : List Doc) :
    ∀ (s : DBState) (k : String), (∀ d ∈ docs, idOf d ≠ k) →
      mapGet (deleteLoop env docs s).1.documentCache k = mapGet s.documentCache k ∧
      mapGet (deleteLoop env docs s).1.messageIndex k = mapGet s.messageIndex k := by
  induction docs with
  | nil => intro s k _; rw [deleteLoop]; exact ⟨rfl, rfl⟩
  | cons d0 rest ih =>
    intro s k h
    have hd0 : idOf d0 ≠ k := h d0 (List.mem_cons_self _ _)
    have hrest := fun z hz => h z (List.mem_cons_of_mem _ hz)
    cases hm : mapGet s.messageIndex (idOf d0) with
    | none =>
      rw [deleteLoop, hm]
      exact ih s k hrest
    | some m =>
      rw [deleteLoop, hm]
      dsimp only
      cases hmz : (m != 0) with
      | false =>
        rw [if_neg (by simp [hmz])]
        exact ih s k hrest
      | true =>
        rw [if_pos (rfl : true = true)]
        cases hdl : deleteLoop env rest
          { s with messageIndex := mapDel s.messageIndex (idOf d0),
                   documentCache := mapDel s.documentCache (idOf d0) } with
        | mk s2 n =>
          have hih := ih
            { s with messageIndex := mapDel s.messageIndex (idOf d0),
                     documentCache := mapDel s.documentCache (idOf d0) } k hrest
          rw [hdl] at hih
          have hc : mapGet s2.documentCache k = mapGet s.documentCache k :=
            hih.1.trans (mapGet_mapDel_ne _ _ _ (fun he => hd0 he.symm))
          have hi : mapGet s2.messageIndex k = mapGet s.messageIndex k :=
            hih.2.trans (mapGet_mapDel_ne _ _ _ (fun he => hd0 he.symm))
          cases hdf : env.delFail m <;> exact ⟨hc, hi⟩

/-- The full characterization of one run of delete's per-match loop, for a
match list with distinct ids (as produced by the cache scan): a match with a
truthy message-index entry is removed from BOTH maps whether or not its
channel delete fails; a match without an entry is left untouched; the
returned count is the number of matches with a truthy entry whose channel
delete succeeded. -/
theorem deleteLoop_spec (env : Env) (docs : List Doc) :
    ∀ s : DBState, (docs.map idOf).Nodup →
      (∀ d ∈ docs, ∀ m, mapGet s.messageIndex (idOf d) = some m → (m != 0) = true →
        mapGet (deleteLoop env docs s).1.documentCache (idOf d) = none ∧
        mapGet (deleteLoop env docs s).1.messageIndex (idOf d) = none) ∧
      (∀ d ∈ docs, mapGet s.messageIndex (idOf d) = none →
        mapGet (deleteLoop env docs s).1.documentCache (idOf d) =
          mapGet s.documentCache (idOf d)) ∧
      (deleteLoop env docs s).2 = (docs.filter (fun d =>
        match mapGet s.messageIndex (idOf d) with
        | some m => m != 0 && !(env.delFail m)
        | none => false)).length := by
  induction docs with
  | nil =>
    intro s _
    refine ⟨fun d hd => absurd hd (List.not_mem_nil d),
      fun d hd => absurd hd (List.not_mem_nil d), ?_⟩
    rw [deleteLoop]; rfl
  | cons d0 rest ih =>
    intro s hnd
    rw [List.map_cons, List.nodup_cons] at hnd
    obtain ⟨hd0nin, hndr⟩ := hnd
    have hne0 : ∀ d' ∈ rest, idOf d' ≠ idOf d0 := by
      intro d' hd' he
      exact hd0nin (List.mem_map.mpr ⟨d', hd', he⟩)
    cases hm : mapGet s.messageIndex (idOf d0) with
    | none =>
      have heq : deleteLoop env (d0 :: rest) s = deleteLoop env rest s := by
        rw [deleteLoop, hm]
      obtain ⟨ha, hb, hc⟩ := ih s hndr
      refine ⟨?_, ?_, ?_⟩
      · intro d hd m hmm hm0
        rcases List.mem_cons.mp hd with rfl | hd'
        · rw [hm] at hmm; cases hmm
        · rw [heq]; exact ha d hd' m hmm hm0
      · intro d hd hdn
        rcases List.mem_cons.mp hd with rfl | hd'
        · rw [heq]
          exact (deleteLoop_frame env rest s (idOf d) hne0).1
        · rw [heq]; exact hb d hd' hdn
      · rw [heq, hc, List.filter_cons, hm]
        simp
    | some m =>
      cases hmz : (m != 0) with
      | false =>
        have heq : deleteLoop env (d0 :: rest) s = deleteLoop env rest s := by
          rw [deleteLoop, hm]
          dsimp only
          rw [if_neg (by simp [hmz])]
        obtain ⟨ha, hb, hc⟩ := ih s hndr
        refine ⟨?_, ?_, ?_⟩
        · intro d hd m' hmm hm0
          rcases List.mem_cons.mp hd with rfl | hd'
          · rw [hm] at hmm
            injection hmm with hmm'
            rw [← hmm'] at hm0
            rw [hm0] at hmz
            cases hmz
          · rw [heq]; exact ha d hd' m' hmm hm0
        · intro d hd hdn
          rcases List.mem_cons.mp hd with rfl | hd'
          · rw [hm] at hdn; cases hdn
          · rw [heq]; exact hb d hd' hdn
        · rw [heq, hc, List.filter_cons, hm]
          simp [hmz]
      | true =>
        cases hdl : deleteLoop env rest
          { s with messageIndex := mapDel s.messageIndex (idOf d0),
                   documentCache := mapDel s.documentCache (idOf d0) } with
        | mk s2 n =>
          have heq : deleteLoop env (d0 :: rest) s =
              (s2, if env.delFail m then n else n + 1) := by
            rw [deleteLoop, hm]
            dsimp only
            rw [if_pos hmz, hdl]
            cases env.delFail m <;> rfl
          obtain ⟨ha, hb, hc⟩ := ih
            { s with messageIndex := mapDel s.messageIndex (idOf d0),
                     documentCache := mapDel s.documentCache (idOf d0) } hndr
          rw [hdl] at ha hb hc
          refine ⟨?_, ?_, ?_⟩
          · intro d hd m' hmm hm0
            rcases List.mem_cons.mp hd with rfl | hd'
            · have hfr := deleteLoop_frame env rest
                { s with messageIndex := mapDel s.messageIndex (idOf d),
                         documentCache := mapDel s.documentCache (idOf d) }
                (idOf d) hne0
              rw [hdl] at hfr
              rw [heq]
              refine ⟨?_, ?_⟩
              · rw [hfr.1]
                exact mapGet_mapDel_self _ _
              · rw [hfr.2]
                exact mapGet_mapDel_self _ _
            · have hmm' : mapGet (mapDel s.messageIndex (idOf d0)) (idOf d) = some m' := by
                rw [mapGet_mapDel_ne _ _ _ (hne0 d hd')]
                exact hmm
              rw [heq]
              exact ha d hd' m' hmm' hm0
          · intro d hd hdn
            rcases List.mem_cons.mp hd with rfl | hd'
            · rw [hm] at hdn; cases hdn
            · have hdn' : mapGet (mapDel s.messageIndex (idOf d0)) (idOf d) = none := by
                rw [mapGet_mapDel_ne _ _ _ (hne0 d hd')]
                exact hdn
              rw [heq]
              have := hb d hd' hdn'
              rw [this]
              exact mapGet_mapDel_ne _ _ _ (hne0 d hd')
          · rw [heq, List.filter_cons, hm]
            have hfc : rest.filter (fun d =>
                match mapGet (mapDel s.messageIndex (idOf d0)) (idOf d) with
                | some m' => m' != 0 && !(env.delFail m')
                | none => false) = rest.filter (fun d =>
                match mapGet s.messageIndex (idOf d) with
                | some m' => m' != 0 && !(env.delFail m')
                | none => false) := by
              apply filter_congr_own
              intro d' hd'
              rw [mapGet_mapDel_ne _ _ _ (hne0 d' hd')]
            rw [hfc] at hc
            dsimp only at hc
            cases hdf : env.delFail m with
            | true => simp [hmz, hdf, hc]
            | false => simp [hmz, hdf, hc]

/-- C2 counterexample: starting from the empty store, the listener's plain
document message (id 5) and then a snapshot message with an empty index make
a reachable state whose cache holds the document while the message index
does not.  delete({}, "users") matches that document, yet — because the
whole per-match body sits under `if (messageId)` — removes nothing: it
reports success with deletedCount 0 and the document is still returned by a
subsequent find.  This refutes "each matched document is removed from the
Index unconditionally" and "the number removed is always the full match
count". -/
theorem C2_counterexample :
    c2State.documentCache = [("a", [("_id", .str "a"), ("_table", .str "users")])] ∧
    c2State.messageIndex = [] ∧
    (deleteOp okEnv "TDB:" [] "users" c2State).2.success = true ∧
    (deleteOp okEnv "TDB:" [] "users" c2State).2.data =
      some (.obj [("deletedCount", .num 0)]) ∧
    mapGet (deleteOp okEnv "TDB:" [] "users" c2State).1.documentCache "a" =
      some [("_id", .str "a"), ("_table", .str "users")] ∧
    findOp okEnv [] "users" (deleteOp okEnv "TDB:" [] "users" c2State).1 =
      .ok [[("_id", .str "a"), ("_table", .str "users")]] :=
  ⟨rfl, rfl, rfl, rfl, rfl, rfl⟩

/-- C2 (amended): in delete's per-match loop (match ids distinct, as cache
scans produce), every matched document HAVING a truthy message-index entry
is removed from both maps even when its channel delete fails; a matched
document without such an entry is skipped and stays; deletedCount counts
only the matches with an entry whose channel delete succeeded; and delete
reports that loop's count in its success Result. -/
theorem C2_delete_removal (env : Env) (px : String) (docs : List Doc) (s : DBState)
    (hnd : (docs.map idOf).Nodup) :
    (∀ d ∈ docs, ∀ m, mapGet s.messageIndex (idOf d) = some m → (m != 0) = true →
      mapGet (deleteLoop env docs s).1.documentCache (idOf d) = none ∧
      mapGet (deleteLoop env docs s).1.messageIndex (idOf d) = none) ∧
    (∀ d ∈ docs, mapGet s.messageIndex (idOf d) = none →
      mapGet (deleteLoop env docs s).1.documentCache (idOf d) =
        mapGet s.documentCache (idOf d)) ∧
    (deleteLoop env docs s).2 = (docs.filter (fun d =>
      match mapGet s.messageIndex (idOf d) with
      | some m => m != 0 && !(env.delFail m)
      | none => false)).length ∧
    (∀ filter table, matchedDocs env filter table s = .ok docs → docs ≠ [] →
      deleteOp env px filter table s =
        (saveMessageIndex env px (deleteLoop env docs s).1,
         { success := true,
           data := some (.obj [("deletedCount", .num (deleteLoop env docs s).2)]),
           message := some "Deleted document(s)" })) := by
  obtain ⟨ha, hb, hc⟩ := deleteLoop_spec env docs s hnd
  refine ⟨ha, hb, hc, ?_⟩
  intro filter table hmd hne
  unfold deleteOp
  rw [hmd]
  dsimp only
  rw [if_neg (by simpa using hne)]

/-- C2 witness: document "a" (entry 5, channel delete succeeds) is removed,
document "b" (no entry) stays, deletedCount is 1. -/
theorem C2_delete_removal_witness :
    mapGet (deleteLoop okEnv [c2wDocA, c2wDocB] c2wState).1.documentCache "a" = none ∧
    mapGet (deleteLoop okEnv [c2wDocA, c2wDocB] c2wState).1.documentCache "b" =
      mapGet c2wState.documentCache "b" ∧
    (deleteLoop okEnv [c2wDocA, c2wDocB] c2wState).2 =
      ([c2wDocA, c2wDocB].filter (fun d =>
        match mapGet c2wState.messageIndex (idOf d) with
        | some m => m != 0 && !(okEnv.delFail m)
        | none => false)).length := by
  have h := C2_delete_removal okEnv "TDB:" [c2wDocA, c2wDocB] c2wState (by decide)
  exact ⟨(h.1 c2wDocA (by simp) 5 rfl rfl).1, h.2.1 c2wDocB (by simp) rfl, h.2.2.1⟩

/-! ### The update partial-failure claim -/

/-- Within one run of update's per-match loop, the first send exhaustion
aborts the loop at the failing match: the earlier matches' map updates are
kept, the collected list holds exactly the earlier updated documents, the
completion flag is false, and the remaining matches are never attempted. -/
theorem updateLoop_abort (env : Env) (px : String) (opts : UpdateOptions) (patch : Doc)
    (d : Doc) (post : List Doc) :
    ∀ (pre : List Doc) (k : Nat) (s : DBState),
      (∀ j, (hj : j < pre.length) →
        env.send (k + j)
          (encodeDocument (.obj (mkUpdated opts patch (pre.get ⟨j, hj⟩))) px) ≠ none) →
      env.send (k + pre.length)
        (encodeDocument (.obj (mkUpdated opts patch d)) px) = none →
      updateLoop env px opts patch k (pre ++ d :: post) s =
        (applyUpdates env px opts patch k pre s,
         pre.map (mkUpdated opts patch), false) := by
  intro pre
  induction pre with
  | nil =>
    intro k s _ hsend
    simp only [List.length_nil, Nat.add_zero] at hsend
    rw [List.nil_append, updateLoop, hsend]
    rfl
  | cons p pre ih =>
    intro k s hpre hsend
    have h0 := hpre 0 (by simp)
    simp only [Nat.add_zero] at h0
    cases hs : env.send k (encodeDocument (.obj (mkUpdated opts patch p)) px) with
    | none => exact absurd hs h0
    | some mid =>
      have hpre' : ∀ j, (hj : j < pre.length) →
          env.send (k + 1 + j)
            (encodeDocument (.obj (mkUpdated opts patch (pre.get ⟨j, hj⟩))) px) ≠ none := by
        intro j hj
        have h1 := hpre (j + 1) (by simpa using Nat.succ_lt_succ hj)
        rw [show k + 1 + j = k + (j + 1) from by omega]
        exact h1
      have hsend' : env.send (k + 1 + pre.length)
          (encodeDocument (.obj (mkUpdated opts patch d)) px) = none := by
        rw [show k + 1 + pre.length = k + (pre.length + 1) from by omega]
        simpa using hsend
      have hrec := ih (k + 1)
        { s with messageIndex := mapSet s.messageIndex (idOf (mkUpdated opts patch p)) mid,
                 documentCache := mapSet s.documentCache (idOf (mkUpdated opts patch p))
                   (mkUpdated opts patch p) } hpre' hsend'
      rw [List.cons_append, updateLoop, hs]
      dsimp only
      rw [hrec, applyUpdates, hs]
      rfl

/-- C3 counterexample: three cached "users" documents all match; the second
match's send exhausts its retries.  The claim says the loop continues to the
third match and the Result lists the 1st and 3rd updated documents — but the
actual update returns a failed Result with NO data list, the first match's
map updates are kept, and the third document is left untouched (its send
was never attempted: the transport succeeds at every index except 1, so a
reattempt would have succeeded and changed the cache). -/
theorem C3_counterexample :
    matchedDocs c3Env [] "users" c3State = .ok [c3DocA, c3DocB, c3DocC] ∧
    (updateOp c3Env "TDB:" [] [("age", .num 31)] "users"
        { replace := true } c3State).2.success = false ∧
    (updateOp c3Env "TDB:" [] [("age", .num 31)] "users"
        { replace := true } c3State).2.data = none ∧
    (updateOp c3Env "TDB:" [] [("age", .num 31)] "users"
        { replace := true } c3State).2.message = some "Failed to update documents" ∧
    mapGet (updateOp c3Env "TDB:" [] [("age", .num 31)] "users"
        { replace := true } c3State).1.documentCache "a" =
      some [("age", .num 31), ("_id", .str "a")] ∧
    mapGet (updateOp c3Env "TDB:" [] [("age", .num 31)] "users"
        { replace := true } c3State).1.documentCache "c" = some c3DocC :=
  ⟨rfl, rfl, rfl, rfl, rfl, rfl⟩

/-- C3 (amended): when a match's send exhausts its retries, update's
per-match loop ABORTS rather than continuing — the earlier matches' map
updates are kept, the later matches are never attempted, and update's catch
discards the collected document list, returning a failed Result ("Failed to
update documents") that carries no document list at all. -/
theorem C3_update_abort (env : Env) (px : String) (opts : UpdateOptions) (patch : Doc)
    (d : Doc) (post pre : List Doc) (k : Nat) (s : DBState)
    (hpre : ∀ j, (hj : j < pre.length) →
      env.send (k + j)
        (encodeDocument (.obj (mkUpdated opts patch (pre.get ⟨j, hj⟩))) px) ≠ none)
    (hsend : env.send (k + pre.length)
      (encodeDocument (.obj (mkUpdated opts patch d)) px) = none) :
    updateLoop env px opts patch k (pre ++ d :: post) s =
      (applyUpdates env px opts patch k pre s,
       pre.map (mkUpdated opts patch), false) ∧
    (∀ filter table, k = 0 → matchedDocs env filter table s = .ok (pre ++ d :: post) →
      updateOp env px filter patch table opts s =
        (applyUpdates env px opts patch 0 pre s,
         { success := false, hasError := true,
           message := some "Failed to update documents" })) := by
  have hloop := updateLoop_abort env px opts patch d post pre k s hpre hsend
  refine ⟨hloop, ?_⟩
  intro filter table hk hmd
  subst hk
  unfold updateOp
  rw [hmd]
  dsimp only
  rw [if_neg (by simp), if_neg (by simp), hloop]

/-- C3 witness: matches [A, B, C] of table "users", B's send (index 1)
exhausted: the loop returns A's update only with the failed flag, and the
whole update returns the failure Result over the post-A state. -/
theorem C3_update_abort_witness :
    updateLoop c3Env "TDB:" { replace := true } [("age", .num 31)] 0
        ([c3DocA] ++ c3DocB :: [c3DocC]) c3State =
      (applyUpdates c3Env "TDB:" { replace := true } [("age", .num 31)] 0 [c3DocA] c3State,
       [c3DocA].map (mkUpdated { replace := true } [("age", .num 31)]), false) ∧
    updateOp c3Env "TDB:" [] [("age", .num 31)] "users" { replace := true } c3State =
      (applyUpdates c3Env "TDB:" { replace := true } [("age", .num 31)] 0 [c3DocA] c3State,
       { success := false, hasError := true,
         message := some "Failed to update documents" }) := by
  have h := C3_update_abort c3Env "TDB:" { replace := true } [("age", .num 31)]
    c3DocB [c3DocC] [c3DocA] 0 c3State
    (fun j hj => by
      simp only [List.length_cons, List.length_nil] at hj
      have hj0 : j = 0 := by omega
      subst hj0
      simp [c3Env])
    (by simp [c3Env])
  exact ⟨h.1, h.2 [] "users" rfl rfl⟩

/-! ### The error-containment claim -/

/-- C5 counterexample: find with the operator filter on field "email" whose
$regex pattern is "(" — an invalid regular expression, on which JS's
RegExp constructor throws — propagates the exception to the caller
(`.error`) instead of returning a failed Result, and so do findOne and
count: the read operations rethrow filter-evaluation errors past the
public API. -/
theorem C5_counterexample :
    findOp c5Env [("email", .obj [("$regex", .str "(")])] "users" c5State = .error () ∧
    findOneOp c5Env [("email", .obj [("$regex", .str "(")])] "users" c5State = .error () ∧
    countOp c5Env [("email", .obj [("$regex", .str "(")])] "users" c5State = .error () :=
  ⟨rfl, rfl, rfl⟩

/-- When every attempt of a retry round fails, the LAST error is the one
thrown to the operation's own catch. -/
theorem retryOperation_exhaust (attempts : List (Except E T)) (e : E) :
    (∀ a ∈ attempts, ∃ e2, a = .error e2) →
    attempts.getLast? = some (.error e) →
    retryOperation attempts = .error (some e) := by
  induction attempts with
  | nil => intro _ hlast; cases hlast
  | cons a rest ih =>
    intro hall hlast
    obtain ⟨e1, rfl⟩ := hall a (List.mem_cons_self _ _)
    cases rest with
    | nil =>
      simp only [List.getLast?_singleton, Option.some.injEq] at hlast
      injection hlast with h2
      rw [h2]
      rfl
    | cons b rest2 =>
      rw [List.getLast?_cons_cons] at hlast
      rw [retryOperation]
      exact ih (fun x hx => hall x (List.mem_cons_of_mem _ hx)) hlast

/-- C5 (amended, on the write path): retry exhaustion inside a CRUD write
is contained — when every send attempt fails the last error is thrown to
the operation's catch (`retryOperation` returns it, never a success), and
insert turns that exhaustion into a failed Result with the state untouched,
raising nothing past the public API.  (The read path is NOT contained: see
the find/findOne/count regex behavior.) -/
theorem C5_error_containment (env : Env) (px : String) (doc : Doc) (table : String)
    (s : DBState) (attempts : List (Except E T)) (e : E)
    (hall : ∀ a ∈ attempts, ∃ e2, a = .error e2)
    (hlast : attempts.getLast? = some (.error e))
    (hsend : env.send 0 (encodeDocument (.obj (insertDocument env doc table)) px) = none) :
    retryOperation attempts = .error (some e) ∧
    insertOp env px doc table s =
      (s, { success := false, hasError := true,
            message := some "Failed to insert document" }) := by
  refine ⟨retryOperation_exhaust attempts e hall hlast, ?_⟩
  unfold insertOp
  dsimp only
  rw [hsend]

/-- C5 witness: two failed attempts surface the second error; an insert
whose transport always exhausts returns the failed Result unchanged. -/
theorem C5_error_containment_witness :
    retryOperation [(.error 1 : Except Nat Nat), .error 2] = .error (some 2) ∧
    insertOp { rx := fun _ _ => some true, send := fun _ _ => none,
               sendIdx := fun _ => none, delFail := fun _ => false,
               newId := "gen", now := 0 } "TDB:" [("_id", .str "x")] "users" c3State =
      (c3State, { success := false, hasError := true,
                  message := some "Failed to insert document" }) :=
  C5_error_containment
    { rx := fun _ _ => some true, send := fun _ _ => none, sendIdx := fun _ => none,
      delFail := fun _ => false, newId := "gen", now := 0 } "TDB:"
    [("_id", .str "x")] "users" c3State
    [(.error 1 : Except Nat Nat), .error 2] 2
    (fun a ha => by
      rcases List.mem_cons.mp ha with rfl | ha
      · exact ⟨1, rfl⟩
      · rcases List.mem_cons.mp ha with rfl | ha
        · exact ⟨2, rfl⟩
        · cases ha)
    rfl rfl

end TgDb
